import Mathlib

/-!
Verification of the fact/argument consolidation and scoring pipeline of
`03_build_refs_and_master_csv.py` (and of the JSON-securing step of
`sophism_report.py`) against its natural-language specification.

Embedding conventions.  CSV rows become structures whose fields are `String`
(raw text cells) or `Option ℚ` (numeric cells; `none` models a missing or
unparseable cell, mirroring `to_float_or_default` / `_to_float`, which treat
both alike); Python floats become exact rationals, with Python `round`
modelled as round-half-to-even on ℚ; Python dicts become association lists.
The SHA-1 hex digest behind the stable ids is kept abstract: every definition
that hashes takes the digest `sha : String → String` as a parameter, because
no property below depends on the digest itself, only on it being a function.
String helpers are written over `List Char` with structural recursion so that
concrete runs reduce; they implement exactly the Python string operations
used by the script (ASCII range of `\s` and of `str.lower`).
-/

set_option maxHeartbeats 1000000

namespace AutoPN

/-! ### String utilities (`norm_space`, `slugish`, `hash_id`, …) -/

/-- The whitespace class of the Python regexes (`\s`, ASCII range). -/
def isSpaceChar (c : Char) : Bool :=
  c = ' ' || c = '\t' || c = '\n' || c = '\r' || c = '\x0b' || c = '\x0c'

/-- Split a character list at every character satisfying `p` (the semantics
of `re.split` on a single-character class: delimiters are dropped, empty
pieces are kept). -/
def splitChars (p : Char → Bool) (l : List Char) : List (List Char) :=
  l.foldr
    (fun c acc =>
      if p c then [] :: acc
      else
        match acc with
        | [] => [[c]]
        | w :: ws => (c :: w) :: ws)
    [[]]

/-- Trim whitespace, then collapse every inner whitespace run to one space:
`re.sub(r"\s+", " ", s.strip())`, realized as split / drop empties / rejoin. -/
def collapseWs (l : List Char) : List Char :=
  List.intercalate [' '] ((splitChars isSpaceChar l).filter (fun w => w ≠ []))

/-- `norm_space`. -/
def norm_space (s : String) : String :=
  String.mk (collapseWs s.toList)

/-- Python `str.strip("-")`. -/
def stripDashes (l : List Char) : List Char :=
  ((l.dropWhile (fun c => c = '-')).reverse.dropWhile (fun c => c = '-')).reverse

/-- Python `str.strip()` (whitespace). -/
def trimStr (s : String) : String :=
  String.mk (((s.toList.dropWhile isSpaceChar).reverse.dropWhile isSpaceChar).reverse)

/-- Python `str.lower()` (ASCII range). -/
def lowerStr (s : String) : String :=
  String.mk (s.toList.map Char.toLower)

/-- `slugish`: lowercase, drop characters outside `[\w\s-]`, turn whitespace
runs into single dashes, strip outer dashes, defaulting to `"na"`. -/
def slugish (s : String) : String :=
  let kept := (lowerStr s).toList.filter
    (fun c => c.isAlphanum || c = '_' || isSpaceChar c || c = '-')
  let t := List.intercalate ['-'] ((splitChars isSpaceChar kept).filter (fun w => w ≠ []))
  let t := String.mk (stripDashes t)
  if t = "" then "na" else t

/-- `hash_id(prefix, s, n)`: prefix, dash, first `n` hex chars of the SHA-1
digest of `s` (the digest `sha` is an abstract parameter). -/
def hash_id (sha : String → String) (pre s : String) (n : Nat) : String :=
  pre ++ "-" ++ String.mk ((sha s).toList.take n)

/-- `canonical_fact`: light canonical form of a fact text. -/
def canonical_fact (text : String) : String :=
  norm_space text

/-- `derive_topic_id`: slug of the topic name, truncated to 32 characters. -/
def derive_topic_id (topic_name : String) : String :=
  let base := slugish (norm_space topic_name)
  if base ≠ "na" then "TOP-" ++ String.mk (base.toList.take 32) else "TOP-NA"

/-- Index of the last occurrence of `c`, `-1` when there is none
(Python `str.rfind` of a one-character needle). -/
def rfindPos (c : Char) : List Char → Int
  | [] => -1
  | a :: l =>
    let r := rfindPos c l
    if r = -1 then (if a = c then 0 else -1) else r + 1

/-- Index of the first occurrence of `c`, `-1` when there is none
(Python `str.find` of a one-character needle). -/
def findPos (c : Char) : List Char → Int
  | [] => -1
  | a :: l =>
    if a = c then 0
    else
      let r := findPos c l
      if r = -1 then -1 else r + 1

/-- `pick_arg_ref_name`: the normalized explicit name when non-empty, else
the normalized argument text, truncated at ~120 characters on a word
boundary (falling back to a cut at 120 when the last space sits before index
60), with `"(argument)"` as last-resort placeholder for an empty result. -/
def pick_arg_ref_name (argument_ref_name argument_text : String) : String :=
  if norm_space argument_ref_name ≠ "" then norm_space argument_ref_name
  else
    let t := norm_space argument_text
    let t :=
      if 120 < t.length then
        let cut0 := rfindPos ' ' (t.toList.take 120)
        let cut : Int := if cut0 < 60 then 120 else cut0
        String.mk (t.toList.take cut.toNat) ++ "…"
      else t
    if t = "" then "(argument)" else t

/-- Python `str.replace("||", "|")` (left-to-right, non-overlapping). -/
def replaceBars : List Char → List Char
  | '|' :: '|' :: rest => '|' :: replaceBars rest
  | c :: rest => c :: replaceBars rest
  | [] => []

/-- `split_facts`: replace `"||"` by `"|"`, split on `|` or `;`, normalize
each piece and drop the empty ones. -/
def split_facts (raw : String) : List String :=
  let txt := replaceBars raw.toList
  ((splitChars (fun c => c = '|' || c = ';') txt).map
    (fun p => String.mk (collapseWs p))).filter (fun p => p ≠ "")

/-! ### Numeric utilities (buckets, veracity table, rounding, clamping) -/

/-- Absolute value written so that concrete runs reduce; equal to `|x|`. -/
def absQ (x : ℚ) : ℚ :=
  if x < 0 then -x else x

/-- The fixed bucket set of `to_bucket`. -/
def bucketList : List ℚ :=
  [1/100, 1/20, 1/10, 1/4, 1/2, 3/5, 3/4, 9/10, 1]

/-- `to_bucket`: keep a value already in the bucket set, otherwise snap to the
nearest bucket (`min(allowed, key=lambda a: abs(a - x))`; as with Python
`min`, the first minimum wins ties). -/
def to_bucket (x : ℚ) : ℚ :=
  if x ∈ bucketList then x
  else (bucketList.drop 1).foldl (fun b a => if absQ (a - x) < absQ (b - x) then a else b) (1/100)

/-- `veracity_from_status_pct`: the fixed 0/25/50/75/100 → 0/.25/.5/.75/1
table, defaulting to 0 for any other percentage. -/
def veracity_from_status_pct (p : ℤ) : ℚ :=
  if p = 0 then 0
  else if p = 25 then 1/4
  else if p = 50 then 1/2
  else if p = 75 then 3/4
  else if p = 100 then 1
  else 0

/-- `_clamp01`. -/
def clamp01 (x : ℚ) : ℚ :=
  max 0 (min 1 x)

/-- Round half to even on rationals (the rounding mode of Python `round`):
below the midpoint round down, above it round up, on it pick the even
neighbour. -/
def roundHalfEven (x : ℚ) : ℤ :=
  if x < (⌊x⌋ : ℚ) + 1/2 then ⌊x⌋
  else if (⌊x⌋ : ℚ) + 1/2 < x then ⌊x⌋ + 1
  else if 2 ∣ ⌊x⌋ then ⌊x⌋ else ⌊x⌋ + 1

/-- Python `round(x, n)`: round to `n` decimal places, half to even. -/
def roundDp (n : Nat) (x : ℚ) : ℚ :=
  (roundHalfEven (x * 10 ^ n) : ℚ) / 10 ^ n

/-! ### Association lists (Python dicts) -/

/-- Lookup in an association list (first match wins). -/
def alookup {α : Type} : List (String × α) → String → Option α
  | [], _ => none
  | (k, v) :: es, a => if k = a then some v else alookup es a

/-- Dict assignment `d[k] = v`: later writes overwrite earlier ones. -/
def dinsert {α : Type} (d : List (String × α)) (k : String) (v : α) : List (String × α) :=
  (k, v) :: d.filter (fun p => p.1 ≠ k)

/-! ### Seed facts and tuning tables -/

/-- One row of the optional `facts_seed.csv` (raw cells). -/
structure SeedRow where
  canonical_text : String
  fact_ref_id : String
  locked : String

/-- One iteration of `load_seed_facts`: skip rows with an empty canonical
text, replace an absent or empty `fact_ref_id` cell by `hash_id("FREF", ct)`
(8 hex chars, the function's default width), set `locked` to 1 exactly for
`1`/`true`/`True` after stripping, and store. -/
def seed_step (sha : String → String) (seed : List (String × String × Nat))
    (row : SeedRow) : List (String × String × Nat) :=
  let ct := canonical_fact row.canonical_text
  if ct = "" then seed
  else
    let fr := if row.fact_ref_id = "" then hash_id sha "FREF" ct 8 else row.fact_ref_id
    let locked : Nat :=
      if trimStr row.locked = "1" ∨ trimStr row.locked = "true" ∨
          trimStr row.locked = "True" then 1 else 0
    dinsert seed ct (fr, locked)

/-- `load_seed_facts`: canonical text → (fact_ref_id, locked). -/
def load_seed_facts (sha : String → String) (rows : List SeedRow) :
    List (String × String × Nat) :=
  rows.foldl (seed_step sha) []

/-- One row of a tuning CSV, as stored by `_read_tuning_csv` (cells already
stripped).  `manual_strength`: `none` = empty cell (falsy in the Python
presence test), `some none` = non-empty but unparseable (Python `float`
raises, `_to_float` falls back to its default), `some (some q)` = parses to
`q`.  `multiplier`: `none` = empty or unparseable (both make `_to_float`
return its default 1.0). -/
structure TuningRow where
  key : String
  manual_strength : Option (Option ℚ)
  multiplier : Option ℚ

/-- A stored tuning entry. -/
abbrev TuningEntry := Option (Option ℚ) × Option ℚ

/-- `_read_tuning_csv`: key → entry, skipping empty keys, later rows
overwriting earlier ones. -/
def read_tuning (rows : List TuningRow) : List (String × TuningEntry) :=
  rows.foldl
    (fun out row =>
      if row.key = "" then out else dinsert out row.key (row.manual_strength, row.multiplier))
    []

/-- `_apply_tuning`: no entry → clamp the base strength; a non-empty
`manual_strength` → clamp its parsed value (its unparseable fallback being
the base strength); otherwise clamp base × multiplier (multiplier defaulting
to 1). -/
def apply_tuning (base : ℚ) (ref : String) (tm : List (String × TuningEntry)) : ℚ :=
  match alookup tm ref with
  | none => clamp01 base
  | some t =>
    match t.1 with
    | some m => clamp01 (m.getD base)
    | none => clamp01 (base * t.2.getD 1)

/-! ### Events and the first pass (expansion 1 argument × N facts) -/

/-- One row of the events CSV.  Only the columns the pipeline's scoring,
classification and rollup read are modelled; the columns that are merely
copied into the output (ids, dates, speakers, sophism labels, reasoning
name, impact direction) are omitted. -/
structure EventRow where
  topic_name : String
  topic_side : String
  argument_text : String
  argument_ref_name : String
  fact_texts : String
  hidden_topic_hint : String
  hidden_topic_confidence : Option ℚ
  relevance : Option ℚ
  reasoning_credibility : Option ℚ
  impact_score : Option ℚ
deriving DecidableEq

/-- One `arguments_master` line (the modelled columns).  `fact_veracity_pct`
and `strength` are `0` until the second pass fills them (the source holds
`None` there). -/
structure ArgLine where
  arg_ref_id : String
  arg_ref_name : String
  topic_id : String
  topic_side : String
  fact_ref_id : String
  fact_veracity_pct : ℤ
  relevance : ℚ
  reasoning_credibility : ℚ
  impact_score : ℚ
  hidden_topic_hint : String
  hidden_topic_confidence : ℚ
  strength : ℚ
deriving DecidableEq

/-- The mutable state of the first pass: `fact_index_by_text` and
`fact_groups` (the latter keeping, per fact_ref_id, the canonical text and
locked flag set at creation; the first/last-seen email ids it also carries
are not modelled). -/
structure P1State where
  index : List (String × String)
  groups : List (String × String × Nat)
deriving DecidableEq

/-- Resolve a canonical fact text to `(fact_ref_id, locked)`: the seed entry
when present, else the memoized id, else a fresh `hash_id("FREF", ctext, 10)`
recorded in the index. -/
def resolve_fact (sha : String → String) (seed : List (String × String × Nat))
    (st : P1State) (ctext : String) : String × Nat × P1State :=
  match alookup seed ctext with
  | some p => (p.1, p.2, st)
  | none =>
    match alookup st.index ctext with
    | some fr => (fr, 0, st)
    | none =>
      let fr := hash_id sha "FREF" ctext 10
      (fr, 0, ⟨(ctext, fr) :: st.index, st.groups⟩)

/-- Record a fact group on first sight (later sightings only refresh the
unmodelled last-seen field). -/
def note_group (st : P1State) (frid ctext : String) (lk : Nat) : P1State :=
  if (alookup st.groups frid).isSome then st
  else ⟨st.index, st.groups ++ [(frid, ctext, lk)]⟩

/-- The per-row fields computed before the fact loop of the first pass. -/
def row_side (row : EventRow) : String :=
  if lowerStr (norm_space row.topic_side) = "pro" then "pro" else "con"

/-- The fact texts cited by a row; a row citing none is attached to the
pseudo-fact `"(fait non spécifié)"`. -/
def row_facts (row : EventRow) : List String :=
  let l := split_facts row.fact_texts
  if l = [] then ["(fait non spécifié)"] else l

/-- The argument line emitted for one cited fact of one event row (veracity
and strength still unset). -/
def mk_line (sha : String → String) (row : EventRow) (frid : String) : ArgLine :=
  let argument_text := norm_space row.argument_text
  let nm := pick_arg_ref_name row.argument_ref_name argument_text
  { arg_ref_id := hash_id sha "ARREF" nm 10
    arg_ref_name := nm
    topic_id := derive_topic_id (norm_space row.topic_name)
    topic_side := row_side row
    fact_ref_id := frid
    fact_veracity_pct := 0
    relevance := to_bucket (row.relevance.getD (1/2))
    reasoning_credibility := to_bucket (row.reasoning_credibility.getD (1/2))
    impact_score := to_bucket (row.impact_score.getD (1/2))
    hidden_topic_hint := norm_space row.hidden_topic_hint
    hidden_topic_confidence := row.hidden_topic_confidence.getD 0
    strength := 0 }

/-- First-pass processing of one event row: one argument line per cited
fact, threading the index/groups state. -/
def row_lines (sha : String → String) (seed : List (String × String × Nat))
    (row : EventRow) (st : P1State) : List ArgLine × P1State :=
  (row_facts row).foldl
    (fun acc ftxt =>
      let ctext := canonical_fact ftxt
      let r := resolve_fact sha seed acc.2 ctext
      let st2 := note_group r.2.2 r.1 ctext r.2.1
      (acc.1 ++ [mk_line sha row r.1], st2))
    ([], st)

/-- The whole first pass over the events. -/
def pass1 (sha : String → String) (seed : List (String × String × Nat))
    (rows : List EventRow) : List ArgLine × P1State :=
  rows.foldl
    (fun acc row =>
      let r := row_lines sha seed row acc.2
      (acc.1 ++ r.1, r.2))
    ([], ⟨[], []⟩)

/-! ### Second pass: fact status and argument strength -/

/-- Occurrences of a fact on the pro side.  In the source,
`fact_side_counter` is incremented exactly once per emitted argument line,
with that line's `fact_ref_id` and side, so the counters are these counts. -/
def pro_count (lines : List ArgLine) (frid : String) : Nat :=
  lines.countP (fun l => l.fact_ref_id == frid && l.topic_side == "pro")

/-- Occurrences of a fact on the con side. -/
def con_count (lines : List ArgLine) (frid : String) : Nat :=
  lines.countP (fun l => l.fact_ref_id == frid && l.topic_side == "con")

/-- One `facts_master` row (modelled columns). -/
structure FactRow where
  fact_ref_id : String
  canonical_text : String
  status_pct : ℤ
  locked : Nat
  status_source : String
  status_method : String
  pro_occurrences : Nat
  con_occurrences : Nat
deriving DecidableEq

/-- `facts_master`: the 100/25/75 status rule over the fact groups. -/
def facts_master (lines : List ArgLine) (groups : List (String × String × Nat)) :
    List FactRow :=
  groups.map
    (fun g =>
      let pro_n := pro_count lines g.1
      let con_n := con_count lines g.1
      if g.2.2 = 1 then ⟨g.1, g.2.1, 100, g.2.2, "Human", "base_context", pro_n, con_n⟩
      else if 0 < con_n then ⟨g.1, g.2.1, 25, g.2.2, "AI", "contested", pro_n, con_n⟩
      else ⟨g.1, g.2.1, 75, g.2.2, "AI", "close_match", pro_n, con_n⟩)

/-- `fact_status_pct`: status percentage by fact_ref_id, defaulting to 0. -/
def fact_status_pct (facts : List FactRow) (frid : String) : ℤ :=
  (alookup (facts.map (fun fr => (fr.fact_ref_id, fr.status_pct))) frid).getD 0

/-- Third step of the pipeline: fill veracity and
`strength = round(veracity * relevance * reasoning_credibility * impact_score, 4)`. -/
def arguments_master (lines : List ArgLine) (facts : List FactRow) : List ArgLine :=
  lines.map
    (fun l =>
      let pct := fact_status_pct facts l.fact_ref_id
      { l with
        fact_veracity_pct := pct
        strength := roundDp 4 (veracity_from_status_pct pct * l.relevance *
          l.reasoning_credibility * l.impact_score) })

/-! ### Topic aggregation, visibility, rollup and conclusions -/

/-- The argument lines of one topic and side. -/
def lines_for (lines : List ArgLine) (t side : String) : List ArgLine :=
  lines.filter (fun l => l.topic_id == t && l.topic_side == side)

/-- First occurrences of a list of keys, in order (the key set of a Python
dict filled by appending). -/
def dedupFirst : List String → List String
  | [] => []
  | a :: l => a :: dedupFirst (l.filter (fun b => b ≠ a))
termination_by l => l.length
decreasing_by simpa using Nat.lt_succ_of_le (List.length_filter_le _ _)

/-- The distinct argument references of one topic and side, in first-seen
order. -/
def refs_for (lines : List ArgLine) (t side : String) : List String :=
  dedupFirst ((lines_for lines t side).map (fun l => l.arg_ref_id))

/-- The strengths of the occurrence lines of one argument reference. -/
def strengths_for (lines : List ArgLine) (t side ar : String) : List ℚ :=
  ((lines_for lines t side).filter (fun l => l.arg_ref_id == ar)).map (fun l => l.strength)

/-- Python `max(vals) if vals else 0.0`. -/
def list_max : List ℚ → ℚ
  | [] => 0
  | x :: xs => xs.foldl max x

/-- The family strength of a reference: `round(max(vals), 6)`. -/
def smax_for (lines : List ArgLine) (t side ar : String) : ℚ :=
  roundDp 6 (list_max (strengths_for lines t side ar))

/-- The tuned family strength of an argument reference. -/
def tuned_for (lines : List ArgLine) (tuning : List (String × TuningEntry))
    (t side ar : String) : ℚ :=
  apply_tuning (smax_for lines t side ar) ar tuning

/-- The display name of an argument reference (`argref_name`, built over all
lines, later lines overwriting; absent → `"(argument)"`). -/
def argref_name_of (lines : List ArgLine) (ar : String) : String :=
  (((lines.filter (fun l => l.arg_ref_id == ar)).map (fun l => l.arg_ref_name)).getLast?).getD
    "(argument)"

/-- One row of `topics_argrefs_table.csv` / `topics_factrefs_table.csv`
(modelled columns; the name column of the argument table is omitted). -/
structure RefRow where
  topic_id : String
  ref_id : String
  side : String
  count_occurrences : Nat
  sum_strength : ℚ
  avg_strength : ℚ
  max_strength : ℚ
  tuned_strength : ℚ
deriving DecidableEq

/-- The argument-reference breakdown rows of one topic side
(`side_args_summary`'s table output). -/
def arg_ref_rows (lines : List ArgLine) (tuning : List (String × TuningEntry))
    (t side : String) : List RefRow :=
  (refs_for lines t side).map
    (fun ar =>
      let vals := strengths_for lines t side ar
      let cnt := vals.length
      let ssum := roundDp 6 vals.sum
      let smax := roundDp 6 (list_max vals)
      let savg := roundDp 6 (if cnt = 0 then 0 else ssum / cnt)
      let tuned := apply_tuning smax ar tuning
      ⟨t, ar, side, cnt, roundDp 4 ssum, roundDp 4 savg, roundDp 4 smax, roundDp 4 tuned⟩)

/-- The key under which a line's fact is grouped in the fact breakdown
(`(line.get("fact_ref_id") or "").strip()`). -/
def fact_key (l : ArgLine) : String :=
  trimStr l.fact_ref_id

/-- The distinct fact references of one topic and side (empty keys are
skipped). -/
def factrefs_for (lines : List ArgLine) (t side : String) : List String :=
  dedupFirst ((((lines_for lines t side).map fact_key).filter (fun fr => fr ≠ "")))

/-- The strengths of the lines citing one fact reference. -/
def fact_strengths_for (lines : List ArgLine) (t side fr : String) : List ℚ :=
  ((lines_for lines t side).filter (fun l => fact_key l == fr)).map (fun l => l.strength)

/-- The fact-reference breakdown rows of one topic side
(`side_facts_summary`'s table output). -/
def fact_ref_rows (lines : List ArgLine) (tuning : List (String × TuningEntry))
    (t side : String) : List RefRow :=
  (factrefs_for lines t side).map
    (fun fr =>
      let vals := fact_strengths_for lines t side fr
      let cnt := vals.length
      let ssum := roundDp 6 vals.sum
      let smax := roundDp 6 (list_max vals)
      let savg := roundDp 6 (if cnt = 0 then 0 else ssum / cnt)
      let tuned := apply_tuning smax fr tuning
      ⟨t, fr, side, cnt, roundDp 4 ssum, roundDp 4 savg, roundDp 4 smax, roundDp 4 tuned⟩)

/-- `side_args_summary`'s tuned total: `round(Σ tuned family strengths, 4)`
over the distinct references of the side. -/
def side_tuned_total (lines : List ArgLine) (tuning : List (String × TuningEntry))
    (t side : String) : ℚ :=
  roundDp 4 (((refs_for lines t side).map (fun ar => tuned_for lines tuning t side ar)).sum)

/-- `side_args_summary`'s base total: `round(Σ family strengths, 4)`. -/
def side_base_total (lines : List ArgLine) (t side : String) : ℚ :=
  roundDp 4 (((refs_for lines t side).map (fun ar => smax_for lines t side ar)).sum)

/-- The `(arg_ref_id, arg_ref_name, tuned strength)` triples of one side
(`per_argref`). -/
def per_arg_list (lines : List ArgLine) (tuning : List (String × TuningEntry))
    (t side : String) : List (String × String × ℚ) :=
  (refs_for lines t side).map
    (fun ar => (ar, argref_name_of lines ar, tuned_for lines tuning t side ar))

/-- `pack_arglist`'s ordering: Python `sorted(lst, key=lambda x: x[2],
reverse=True)`.  The conclusions CSV and the HTML lists render this sequence
joined with `" || "` / as `<li>` items, preserving its order. -/
def pack_sorted (l : List (String × String × ℚ)) : List (String × String × ℚ) :=
  List.insertionSort (fun a b => b.2.2 ≤ a.2.2) l

/-- The recorded hidden-topic-hint confidences of a topic (`hidden_stat`):
one value per argument line whose hint is non-empty. -/
def hidden_vals (lines : List ArgLine) (t : String) : List ℚ :=
  (lines.filter (fun l => l.topic_id == t && l.hidden_topic_hint ≠ "")).map
    (fun l => l.hidden_topic_confidence)

/-- `open_ratio_hidden_hints`: the share of recorded confidences ≥ 0.50,
rounded to 3 decimals. -/
def open_ratio_of (vals : List ℚ) : ℚ :=
  roundDp 3 ((vals.countP (fun v => decide ((1:ℚ)/2 ≤ v)) : ℚ) / ((max 1 vals.length : ℕ) : ℚ))

/-- `_visibility_for_topic`: hidden when some confidence was recorded and the
rounded ratio reaches 0.40. -/
def visibility_of (vals : List ℚ) : String :=
  if vals = [] then "open"
  else if 2/5 ≤ open_ratio_of vals then "hidden" else "open"

/-- One `topics_master` row (modelled columns). -/
structure TopicRow where
  topic_id : String
  visibility : String
  open_ratio_hidden_hints : ℚ
deriving DecidableEq

/-- One `topics_conclusions` row (modelled columns; the pro/con lists are
kept as the sorted triple sequences that the CSV and HTML join for
display). -/
structure ConclusionRow where
  topic_id : String
  visibility : String
  pro_total_tuned : ℚ
  con_total_tuned : ℚ
  net_score : ℚ
  pro_argrefs : List (String × String × ℚ)
  con_argrefs : List (String × String × ℚ)
deriving DecidableEq

/-- The topic ids under aggregation, lexicographically sorted
(`sorted(by_topic_side_argref.keys())`). -/
def topics_of (lines : List ArgLine) : List String :=
  List.insertionSort (fun a b => a ≤ b) (dedupFirst (lines.map (fun l => l.topic_id)))

/-- All modelled outputs of the pipeline. -/
structure Outputs where
  facts : List FactRow
  args : List ArgLine
  topics : List TopicRow
  argref_rows : List RefRow
  factref_rows : List RefRow
  conclusions : List ConclusionRow

/-- The conclusions row of one topic. -/
def conclusion_for (master : List ArgLine) (argTuning : List (String × TuningEntry))
    (t : String) : ConclusionRow :=
  let pro_tuned := side_tuned_total master argTuning t "pro"
  let con_tuned := side_tuned_total master argTuning t "con"
  ⟨t, visibility_of (hidden_vals master t),
    roundDp 4 pro_tuned, roundDp 4 con_tuned, roundDp 4 (pro_tuned - con_tuned),
    pack_sorted (per_arg_list master argTuning t "pro"),
    pack_sorted (per_arg_list master argTuning t "con")⟩

/-- The whole pipeline: seed loading, first pass, fact status, strengths,
tuning, per-topic aggregation.  (`_visibility_for_topic` reads the hint and
confidence fields, which the strength-filling pass leaves untouched, so it is
evaluated over the finished master lines.) -/
def build (sha : String → String) (seedRows : List SeedRow)
    (argT factT : List TuningRow) (rows : List EventRow) : Outputs :=
  let seed := load_seed_facts sha seedRows
  let p1 := pass1 sha seed rows
  let facts := facts_master p1.1 p1.2.groups
  let master := arguments_master p1.1 facts
  let argTuning := read_tuning argT
  let factTuning := read_tuning factT
  let tids := topics_of master
  ⟨facts, master,
    tids.map (fun t => ⟨t, visibility_of (hidden_vals master t), open_ratio_of (hidden_vals master t)⟩),
    (tids.map (fun t => arg_ref_rows master argTuning t "pro" ++ arg_ref_rows master argTuning t "con")).flatten,
    (tids.map (fun t => fact_ref_rows master factTuning t "pro" ++ fact_ref_rows master factTuning t "con")).flatten,
    tids.map (fun t => conclusion_for master argTuning t)⟩

/-- The finished master lines of a run (first pass + status + strength). -/
def master_of (sha : String → String) (seedRows : List SeedRow)
    (rows : List EventRow) : List ArgLine :=
  arguments_master (pass1 sha (load_seed_facts sha seedRows) rows).1
    (facts_master (pass1 sha (load_seed_facts sha seedRows) rows).1
      (pass1 sha (load_seed_facts sha seedRows) rows).2.groups)

/-! ### Pure characterization of the first pass

`fact_index_by_text` only memoizes the pure function
`hash_id("FREF", ctext, 10)`, so every emitted line is a pure function of its
event row: the lemmas below extract that form from the stateful fold. -/

/-- The fact id a canonical text resolves to, as a pure function: the seed
id when the text is seeded, else the stable hash of the text. -/
def pure_fact_id (sha : String → String) (seed : List (String × String × Nat))
    (ctext : String) : String :=
  match alookup seed ctext with
  | some p => p.1
  | none => hash_id sha "FREF" ctext 10

/-- The locked flag of a canonical text: the seed flag when seeded, else 0. -/
def pure_locked (seed : List (String × String × Nat)) (ctext : String) : Nat :=
  match alookup seed ctext with
  | some p => p.2
  | none => 0

/-- The lines of one row, in pure form. -/
def row_lines_pure (sha : String → String) (seed : List (String × String × Nat))
    (row : EventRow) : List ArgLine :=
  (row_facts row).map
    (fun ftxt => mk_line sha row (pure_fact_id sha seed (canonical_fact ftxt)))

/-- All first-pass lines, in pure form. -/
def lines_pure (sha : String → String) (seed : List (String × String × Nat))
    (rows : List EventRow) : List ArgLine :=
  (rows.map (row_lines_pure sha seed)).flatten

/-- The first-pass state invariant: the index memoizes the hash, and every
group stores the pure id and locked flag of its canonical text. -/
def StOK (sha : String → String) (seed : List (String × String × Nat))
    (st : P1State) : Prop :=
  (∀ p ∈ st.index, p.2 = hash_id sha "FREF" p.1 10) ∧
  (∀ g ∈ st.groups, g.1 = pure_fact_id sha seed g.2.1 ∧ g.2.2 = pure_locked seed g.2.1)

/-! ### A concrete sample run, evaluated once and shared by the witnesses -/

/-- A one-row events CSV: topic `t`, side `pro`, argument `arg a`, one cited
fact `F1`, every numeric cell missing. -/
def sampleRow : EventRow :=
  ⟨"t", "pro", "arg a", "", "F1", "", none, none, none, none⟩

/-- The single master line of the sample run (digest = identity). -/
def sampleLine : ArgLine :=
  ⟨"ARREF-arg a", "arg a", "TOP-t", "pro", "FREF-F1", 75, 1/2, 1/2, 1/2, "", 0, 469/5000⟩

/-- The single facts_master row of the sample run. -/
def sampleFact : FactRow :=
  ⟨"FREF-F1", "F1", 75, 0, "AI", "close_match", 1, 0⟩

/-- The single conclusions row of the sample run. -/
def sampleConclusion : ConclusionRow :=
  ⟨"TOP-t", "open", 469/5000, 0, 469/5000, [("ARREF-arg a", "arg a", 469/5000)], []⟩

/-! ### Concrete inputs for the corrected claims -/

/-- The two-argument pro run used to refute the claim's bound on per-side
totals: one locked fact, two distinct argument references at strength 1. -/
def c10rows : List EventRow :=
  [⟨"t", "pro", "", "a1", "F", "", none, some 1, some 1, some 1⟩,
   ⟨"t", "pro", "", "a2", "F", "", none, some 1, some 1, some 1⟩]

/-- The seed locking fact `F` (so both lines get veracity 1). -/
def c10seed : List SeedRow :=
  [⟨"F", "FID1", "1"⟩]

/-- A hinted event row with confidence 0.50 (161 of these). -/
def c4rowA : EventRow :=
  ⟨"t", "pro", "", "a1", "", "h", some (1/2), none, none, none⟩

/-- A hinted event row with confidence 0 (242 of these). -/
def c4rowB : EventRow :=
  ⟨"t", "pro", "", "a1", "", "h", some 0, none, none, none⟩

/-- 403 hinted rows of which 161 (≈39.95%) have confidence ≥ 0.50. -/
def c4rows : List EventRow :=
  List.replicate 161 c4rowA ++ List.replicate 242 c4rowB

/-- The first-pass line of `c4rowA`. -/
def c4lineA : ArgLine :=
  ⟨"ARREF-a1", "a1", "TOP-t", "pro", "FREF-(fait non ", 0, 1/2, 1/2, 1/2, "h", 1/2, 0⟩

/-- The first-pass line of `c4rowB`. -/
def c4lineB : ArgLine :=
  ⟨"ARREF-a1", "a1", "TOP-t", "pro", "FREF-(fait non ", 0, 1/2, 1/2, 1/2, "h", 0, 0⟩

/-- The seed locking fact `F`. -/
def c9seed : List SeedRow :=
  [⟨"F", "FID1", "1"⟩]

/-- A row with the unrecognized side label `against`, citing the locked
fact. -/
def c9row : EventRow :=
  ⟨"t", "against", "", "a1", "F", "", none, none, none, none⟩

/-! ### The JSON-securing step of `sophism_report.analyze_with_context` -/

/-- JSON values, as produced by `json.loads`. -/
inductive Json where
  | null
  | bool (b : Bool)
  | num (q : ℚ)
  | str (s : String)
  | arr (elems : List Json)
  | obj (fields : List (String × Json))

/-- The five keys of the per-message analysis dictionary. -/
def analysisKeys : List String :=
  ["sophisms", "real_matters", "fallacious_excuses", "valid_but_misused", "major_points"]

/-- `raw[start:end+1]` for the first `{` and the last `}` when both exist
with `end > start`; the raw response otherwise. -/
def extract_segment (raw : String) : String :=
  let l := raw.toList
  let s := findPos '\x7b' l
  let e := rfindPos '\x7d' l
  if s ≠ -1 ∧ e ≠ -1 ∧ s < e then String.mk ((l.take (e.toNat + 1)).drop s.toNat) else raw

/-- `parsed.get(k)` on a parsed JSON object (`json.loads` keeps the last of
duplicate keys). -/
def jget (fields : List (String × Json)) (k : String) : Option Json :=
  ((fields.filter (fun p => p.1 == k)).getLast?).map Prod.snd

/-- Keep a list value, replace anything else (missing key included) by the
empty list. -/
def getArr : Option Json → Json
  | some (Json.arr l) => Json.arr l
  | _ => Json.arr []

/-- The `# sécuriser JSON` block: cut the brace-delimited segment, parse it
(`parse` abstracts `json.loads`: `none` = the parse raised), and populate the
five keys, each key falling back to the empty list when the parse failed,
the result is not an object (`.get` would raise inside the guarded block),
the key is absent, or its value is not a list.  The Lean function is total:
the step never raises. -/
def secure_json (parse : String → Option Json) (raw : String) : List (String × Json) :=
  match parse (extract_segment raw) with
  | some (Json.obj fields) => analysisKeys.map (fun k => (k, getArr (jget fields k)))
  | _ => analysisKeys.map (fun k => (k, Json.arr []))

/-! ### Theorems: pipeline characterizations, claim theorems, witnesses -/

theorem absQ_eq_abs (x : ℚ) : absQ x = |x| := by
  by_cases h : x < 0
  · simp [absQ, h, abs_of_neg h]
  · simp [absQ, h, abs_of_nonneg (le_of_not_lt h)]

theorem build_facts_eq (sha : String → String) (seedRows : List SeedRow)
    (argT factT : List TuningRow) (rows : List EventRow) :
    (build sha seedRows argT factT rows).facts =
      facts_master (pass1 sha (load_seed_facts sha seedRows) rows).1
        (pass1 sha (load_seed_facts sha seedRows) rows).2.groups := rfl

theorem build_args_eq (sha : String → String) (seedRows : List SeedRow)
    (argT factT : List TuningRow) (rows : List EventRow) :
    (build sha seedRows argT factT rows).args = master_of sha seedRows rows := rfl

theorem build_topics_eq (sha : String → String) (seedRows : List SeedRow)
    (argT factT : List TuningRow) (rows : List EventRow) :
    (build sha seedRows argT factT rows).topics =
      (topics_of (master_of sha seedRows rows)).map
        (fun t => ⟨t, visibility_of (hidden_vals (master_of sha seedRows rows) t),
          open_ratio_of (hidden_vals (master_of sha seedRows rows) t)⟩) := rfl

theorem build_conclusions_eq (sha : String → String) (seedRows : List SeedRow)
    (argT factT : List TuningRow) (rows : List EventRow) :
    (build sha seedRows argT factT rows).conclusions =
      (topics_of (master_of sha seedRows rows)).map
        (conclusion_for (master_of sha seedRows rows) (read_tuning argT)) := rfl

theorem build_argref_rows_eq (sha : String → String) (seedRows : List SeedRow)
    (argT factT : List TuningRow) (rows : List EventRow) :
    (build sha seedRows argT factT rows).argref_rows =
      ((topics_of (master_of sha seedRows rows)).map
        (fun t => arg_ref_rows (master_of sha seedRows rows) (read_tuning argT) t "pro" ++
          arg_ref_rows (master_of sha seedRows rows) (read_tuning argT) t "con")).flatten := rfl

theorem build_factref_rows_eq (sha : String → String) (seedRows : List SeedRow)
    (argT factT : List TuningRow) (rows : List EventRow) :
    (build sha seedRows argT factT rows).factref_rows =
      ((topics_of (master_of sha seedRows rows)).map
        (fun t => fact_ref_rows (master_of sha seedRows rows) (read_tuning factT) t "pro" ++
          fact_ref_rows (master_of sha seedRows rows) (read_tuning factT) t "con")).flatten := rfl

theorem alookup_mem {α : Type} {l : List (String × α)} {a : String} {b : α}
    (h : alookup l a = some b) : (a, b) ∈ l := by
  induction l with
  | nil => simp [alookup] at h
  | cons p es ih =>
    cases p with
    | mk k v =>
      rw [alookup] at h
      by_cases hk : k = a
      · subst hk
        simp at h
        subst h
        exact List.mem_cons_self _ _
      · simp [hk] at h
        exact List.mem_cons_of_mem _ (ih h)

theorem resolve_fact_spec (sha : String → String) (seed : List (String × String × Nat))
    (st : P1State) (c : String) (h : StOK sha seed st) :
    (resolve_fact sha seed st c).1 = pure_fact_id sha seed c ∧
    (resolve_fact sha seed st c).2.1 = pure_locked seed c ∧
    StOK sha seed (resolve_fact sha seed st c).2.2 := by
  unfold resolve_fact pure_fact_id pure_locked
  cases hs : alookup seed c with
  | some p => exact ⟨rfl, rfl, h⟩
  | none =>
    cases hi : alookup st.index c with
    | some fr =>
      refine ⟨?_, rfl, h⟩
      have := h.1 _ (alookup_mem hi)
      simpa using this
    | none =>
      refine ⟨rfl, rfl, ?_, h.2⟩
      intro p hp
      rcases List.mem_cons.mp hp with h1 | h1
      · simp [h1]
      · exact h.1 _ h1

theorem note_group_spec (sha : String → String) (seed : List (String × String × Nat))
    (st : P1State) (frid ctext : String) (lk : Nat) (h : StOK sha seed st)
    (hid : frid = pure_fact_id sha seed ctext) (hlk : lk = pure_locked seed ctext) :
    StOK sha seed (note_group st frid ctext lk) := by
  unfold note_group
  split
  · exact h
  · refine ⟨h.1, ?_⟩
    intro g hg
    rcases List.mem_append.mp hg with h1 | h1
    · exact h.2 _ h1
    · simp at h1
      subst h1
      exact ⟨hid, hlk⟩

theorem row_lines_aux (sha : String → String) (seed : List (String × String × Nat))
    (row : EventRow) (fl : List String) :
    ∀ (acc : List ArgLine) (st : P1State), StOK sha seed st →
      (fl.foldl
        (fun acc ftxt =>
          let ctext := canonical_fact ftxt
          let r := resolve_fact sha seed acc.2 ctext
          let st2 := note_group r.2.2 r.1 ctext r.2.1
          (acc.1 ++ [mk_line sha row r.1], st2))
        (acc, st)).1 =
        acc ++ fl.map (fun ftxt => mk_line sha row (pure_fact_id sha seed (canonical_fact ftxt))) ∧
      StOK sha seed
        (fl.foldl
          (fun acc ftxt =>
            let ctext := canonical_fact ftxt
            let r := resolve_fact sha seed acc.2 ctext
            let st2 := note_group r.2.2 r.1 ctext r.2.1
            (acc.1 ++ [mk_line sha row r.1], st2))
          (acc, st)).2 := by
  induction fl with
  | nil => intro acc st h; simpa using h
  | cons f fl ih =>
    intro acc st h
    have hr := resolve_fact_spec sha seed st (canonical_fact f) h
    have hst2 := note_group_spec sha seed _ _ _ _ hr.2.2 hr.1 hr.2.1
    have := ih (acc ++ [mk_line sha row ((resolve_fact sha seed st (canonical_fact f)).1)]) _ hst2
    simp only [List.foldl_cons]
    refine ⟨?_, this.2⟩
    rw [this.1, hr.1]
    simp

theorem row_lines_spec (sha : String → String) (seed : List (String × String × Nat))
    (row : EventRow) (st : P1State) (h : StOK sha seed st) :
    (row_lines sha seed row st).1 = row_lines_pure sha seed row ∧
    StOK sha seed (row_lines sha seed row st).2 := by
  have := row_lines_aux sha seed row (row_facts row) [] st h
  unfold row_lines row_lines_pure
  simpa using this

theorem pass1_aux (sha : String → String) (seed : List (String × String × Nat))
    (rows : List EventRow) :
    ∀ (acc : List ArgLine) (st : P1State), StOK sha seed st →
      (rows.foldl
        (fun acc row =>
          let r := row_lines sha seed row acc.2
          (acc.1 ++ r.1, r.2))
        (acc, st)).1 = acc ++ lines_pure sha seed rows ∧
      StOK sha seed
        (rows.foldl
          (fun acc row =>
            let r := row_lines sha seed row acc.2
            (acc.1 ++ r.1, r.2))
          (acc, st)).2 := by
  induction rows with
  | nil => intro acc st h; simpa [lines_pure] using h
  | cons r rows ih =>
    intro acc st h
    have hr := row_lines_spec sha seed r st h
    have := ih (acc ++ (row_lines sha seed r st).1) _ hr.2
    simp only [List.foldl_cons]
    refine ⟨?_, this.2⟩
    rw [this.1, hr.1]
    simp [lines_pure]

/-- The first pass, solved: its lines are the pure per-row lines in order,
and the final state satisfies the invariant. -/
theorem pass1_spec (sha : String → String) (seed : List (String × String × Nat))
    (rows : List EventRow) :
    (pass1 sha seed rows).1 = lines_pure sha seed rows ∧
    StOK sha seed (pass1 sha seed rows).2 := by
  have := pass1_aux sha seed rows [] ⟨[], []⟩ (by constructor <;> simp)
  unfold pass1
  simpa using this

/-! ### Arithmetic lemmas about rounding, clamping, buckets and maxima -/

theorem roundHalfEven_intCast (z : ℤ) : roundHalfEven (z : ℚ) = z := by
  unfold roundHalfEven
  rw [Int.floor_intCast]
  norm_num

theorem roundDp_den (n : Nat) (z : ℤ) : roundDp n ((z : ℚ) / 10 ^ n) = (z : ℚ) / 10 ^ n := by
  unfold roundDp
  have h10 : ((10 : ℚ) ^ n) ≠ 0 := by positivity
  rw [div_mul_cancel₀ _ h10, roundHalfEven_intCast]

theorem roundDp_idem (n : Nat) (x : ℚ) : roundDp n (roundDp n x) = roundDp n x := by
  have := roundDp_den n (roundHalfEven (x * 10 ^ n))
  simpa [roundDp] using this

theorem roundDp_sub_exact (n : Nat) (x y : ℚ) :
    roundDp n (roundDp n x - roundDp n y) = roundDp n x - roundDp n y := by
  have h : roundDp n x - roundDp n y =
      ((roundHalfEven (x * 10 ^ n) - roundHalfEven (y * 10 ^ n) : ℤ) : ℚ) / 10 ^ n := by
    unfold roundDp
    push_cast
    ring
  rw [h, roundDp_den]

theorem roundHalfEven_nonneg {x : ℚ} (h : 0 ≤ x) : 0 ≤ roundHalfEven x := by
  have hf : (0 : ℤ) ≤ ⌊x⌋ := Int.floor_nonneg.mpr h
  unfold roundHalfEven
  split
  · exact hf
  · split
    · omega
    · split <;> omega

theorem roundHalfEven_le_intCast {x : ℚ} {m : ℤ} (h : x ≤ (m : ℚ)) :
    roundHalfEven x ≤ m := by
  have hfm : ⌊x⌋ ≤ m := by
    calc ⌊x⌋ ≤ ⌊(m : ℚ)⌋ := Int.floor_le_floor h
    _ = m := Int.floor_intCast m
  unfold roundHalfEven
  split
  · exact hfm
  · have hne : ⌊x⌋ ≠ m := by
      intro he
      have h1 : (m : ℚ) ≤ x := he ▸ Int.floor_le x
      have h2 : x = (m : ℚ) := le_antisymm h h1
      rename_i hlt
      rw [h2] at hlt
      norm_num [Int.floor_intCast] at hlt
    split
    · omega
    · split <;> omega

theorem roundDp_nonneg {n : Nat} {x : ℚ} (h : 0 ≤ x) : 0 ≤ roundDp n x := by
  unfold roundDp
  have h10 : (0 : ℚ) < 10 ^ n := by positivity
  have := roundHalfEven_nonneg (x := x * 10 ^ n) (by positivity)
  positivity

theorem roundDp_le_intCast {n : Nat} {x : ℚ} {m : ℤ} (h : x ≤ (m : ℚ)) :
    roundDp n x ≤ (m : ℚ) := by
  unfold roundDp
  have h10 : (0 : ℚ) < 10 ^ n := by positivity
  rw [div_le_iff₀ h10]
  have hx : x * 10 ^ n ≤ (m : ℚ) * 10 ^ n := by
    exact mul_le_mul_of_nonneg_right h (le_of_lt h10)
  have hm : x * 10 ^ n ≤ ((m * 10 ^ n : ℤ) : ℚ) := by push_cast; exact hx
  have := roundHalfEven_le_intCast hm
  calc (roundHalfEven (x * 10 ^ n) : ℚ) ≤ ((m * 10 ^ n : ℤ) : ℚ) := by exact_mod_cast this
  _ = (m : ℚ) * 10 ^ n := by push_cast; ring

theorem clamp01_nonneg (x : ℚ) : 0 ≤ clamp01 x :=
  le_max_left 0 _

theorem clamp01_le_one (x : ℚ) : clamp01 x ≤ 1 :=
  max_le (by norm_num) (min_le_left 1 x)

/-- `_apply_tuning` always clamps, whatever the tuning entry holds. -/
theorem apply_tuning_mem_unit (base : ℚ) (ref : String)
    (tm : List (String × TuningEntry)) :
    0 ≤ apply_tuning base ref tm ∧ apply_tuning base ref tm ≤ 1 := by
  unfold apply_tuning
  cases halo : alookup tm ref with
  | none => exact ⟨clamp01_nonneg _, clamp01_le_one _⟩
  | some t =>
    obtain ⟨ms, mult⟩ := t
    cases ms <;> exact ⟨clamp01_nonneg _, clamp01_le_one _⟩

theorem absQ_nonneg (x : ℚ) : 0 ≤ absQ x := by
  rw [absQ_eq_abs]; exact abs_nonneg x

theorem foldl_nearest_or (x : ℚ) (l : List ℚ) :
    ∀ b0 : ℚ,
      (l.foldl (fun b a => if absQ (a - x) < absQ (b - x) then a else b) b0 = b0 ∨
        l.foldl (fun b a => if absQ (a - x) < absQ (b - x) then a else b) b0 ∈ l) := by
  induction l with
  | nil => intro b0; left; rfl
  | cons a l ih =>
    intro b0
    rw [List.foldl_cons]
    rcases ih (if absQ (a - x) < absQ (b0 - x) then a else b0) with h | h
    · rw [h]
      split
      · right; exact List.mem_cons_self _ _
      · left; rfl
    · right; exact List.mem_cons_of_mem _ h

theorem foldl_nearest_le (x : ℚ) (l : List ℚ) :
    ∀ b0 : ℚ,
      absQ (l.foldl (fun b a => if absQ (a - x) < absQ (b - x) then a else b) b0 - x) ≤
          absQ (b0 - x) ∧
        ∀ a ∈ l,
          absQ (l.foldl (fun b a => if absQ (a - x) < absQ (b - x) then a else b) b0 - x) ≤
            absQ (a - x) := by
  induction l with
  | nil => intro b0; exact ⟨le_refl _, by simp⟩
  | cons a l ih =>
    intro b0
    rw [List.foldl_cons]
    rcases ih (if absQ (a - x) < absQ (b0 - x) then a else b0) with ⟨h1, h2⟩
    by_cases hc : absQ (a - x) < absQ (b0 - x)
    · rw [if_pos hc] at h1 h2 ⊢
      refine ⟨le_trans h1 (le_of_lt hc), ?_⟩
      intro b hb
      rcases List.mem_cons.mp hb with hb | hb
      · exact hb ▸ h1
      · exact h2 b hb
    · rw [if_neg hc] at h1 h2 ⊢
      refine ⟨h1, ?_⟩
      intro b hb
      rcases List.mem_cons.mp hb with hb | hb
      · exact hb ▸ le_trans h1 (le_of_not_lt hc)
      · exact h2 b hb

/-- `to_bucket` lands in the bucket set. -/
theorem to_bucket_mem (x : ℚ) : to_bucket x ∈ bucketList := by
  unfold to_bucket
  split
  · assumption
  · rcases foldl_nearest_or x (bucketList.drop 1) (1/100) with h | h
    · rw [h]; exact List.mem_cons_self _ _
    · exact List.mem_of_mem_drop h

/-- `to_bucket` snaps to a nearest bucket: no bucket is closer. -/
theorem to_bucket_nearest (x : ℚ) : ∀ b ∈ bucketList, absQ (to_bucket x - x) ≤ absQ (b - x) := by
  intro b hb
  unfold to_bucket
  split
  · rename_i hx
    have : absQ (x - x) = 0 := by simp [absQ]
    rw [this]
    exact absQ_nonneg _
  · rcases foldl_nearest_le x (bucketList.drop 1) (1/100) with ⟨h1, h2⟩
    have hsplit : bucketList = 1/100 :: bucketList.drop 1 := rfl
    rw [hsplit] at hb
    rcases List.mem_cons.mp hb with h | h
    · rw [h]; exact h1
    · exact h2 b h

/-- A value already in the bucket set is kept. -/
theorem to_bucket_of_mem {x : ℚ} (h : x ∈ bucketList) : to_bucket x = x := by
  unfold to_bucket
  rw [if_pos h]

theorem foldl_max_facts (l : List ℚ) :
    ∀ b : ℚ, b ≤ l.foldl max b ∧ ∀ v ∈ l, v ≤ l.foldl max b := by
  induction l with
  | nil => intro b; exact ⟨le_refl _, by simp⟩
  | cons a l ih =>
    intro b
    rw [List.foldl_cons]
    rcases ih (max b a) with ⟨h1, h2⟩
    refine ⟨le_trans (le_max_left b a) h1, ?_⟩
    intro v hv
    rcases List.mem_cons.mp hv with hv | hv
    · rw [hv]; exact le_trans (le_max_right b a) h1
    · exact h2 v hv

/-- `list_max` dominates every occurrence strength. -/
theorem le_list_max {v : ℚ} {l : List ℚ} (h : v ∈ l) : v ≤ list_max l := by
  cases l with
  | nil => simp at h
  | cons a l =>
    unfold list_max
    rcases List.mem_cons.mp h with hv | hv
    · rw [hv]; exact (foldl_max_facts l a).1
    · exact (foldl_max_facts l a).2 v hv

theorem sample_facts_eval :
    (build (fun s => s) [] [] [] [sampleRow]).facts = [sampleFact] := by
  decide

theorem sample_args_eval :
    (build (fun s => s) [] [] [] [sampleRow]).args = [sampleLine] := by
  norm_num +decide [sampleRow, sampleLine, build, pass1, row_lines, row_facts, split_facts,
    replaceBars, splitChars, collapseWs, isSpaceChar, canonical_fact, norm_space, resolve_fact,
    alookup, note_group, mk_line, pick_arg_ref_name, lowerStr, derive_topic_id, slugish,
    stripDashes, hash_id, load_seed_facts, facts_master, fact_status_pct, arguments_master,
    pro_count, con_count, row_side, to_bucket, bucketList, absQ, veracity_from_status_pct,
    roundDp, roundHalfEven, trimStr, List.countP, List.countP.go]

theorem sample_conclusions_eval :
    (build (fun s => s) [] [] [] [sampleRow]).conclusions = [sampleConclusion] := by
  norm_num +decide [sampleRow, sampleConclusion, build, pass1, row_lines, row_facts,
    split_facts, replaceBars, splitChars, collapseWs, isSpaceChar, canonical_fact, norm_space,
    resolve_fact, alookup, note_group, mk_line, pick_arg_ref_name, lowerStr, derive_topic_id,
    slugish, stripDashes, hash_id, load_seed_facts, facts_master, fact_status_pct,
    arguments_master, pro_count, con_count, row_side, to_bucket, bucketList, absQ,
    veracity_from_status_pct, roundDp, roundHalfEven, trimStr, List.countP, List.countP.go,
    conclusion_for, side_tuned_total, tuned_for, smax_for, strengths_for, refs_for, lines_for,
    dedupFirst, list_max, apply_tuning, read_tuning, clamp01, per_arg_list, argref_name_of,
    pack_sorted, List.insertionSort, List.orderedInsert, topics_of, hidden_vals, visibility_of,
    open_ratio_of]

/-- C1: every fact group produced from the events CSV gets its status from
the fixed veracity rule — a locked flag of 1 (which comes from the seed
file: the fourth conjunct ties the stored flag to the seed lookup of the
fact's canonical text) gives `status_pct = 100`; otherwise at least one con
occurrence among the argument lines citing the fact gives 25 ("contested"),
and no con occurrence gives 75; no other status value is ever assigned. -/
theorem C1_fact_status_rule (sha : String → String) (seedRows : List SeedRow)
    (argT factT : List TuningRow) (rows : List EventRow) (f : FactRow)
    (hf : f ∈ (build sha seedRows argT factT rows).facts) :
    f.status_pct = (if f.locked = 1 then 100 else if 0 < f.con_occurrences then 25 else 75) ∧
    (f.status_pct = 100 ∨ f.status_pct = 25 ∨ f.status_pct = 75) ∧
    f.locked = pure_locked (load_seed_facts sha seedRows) f.canonical_text ∧
    f.con_occurrences =
      con_count (pass1 sha (load_seed_facts sha seedRows) rows).1 f.fact_ref_id := by
  rw [build_facts_eq] at hf
  unfold facts_master at hf
  rw [List.mem_map] at hf
  obtain ⟨g, hg, hfg⟩ := hf
  have hinv := (pass1_spec sha (load_seed_facts sha seedRows) rows).2.2 g hg
  subst hfg
  rcases hinv with ⟨hid, hlk⟩
  by_cases h1 : g.2.2 = 1 <;>
    by_cases h2 : 0 < con_count (pass1 sha (load_seed_facts sha seedRows) rows).1 g.1 <;>
      simp [h1, h2, ← hlk]

/-- Witness for C1: a run with one unlocked, uncontested fact. -/
theorem C1_fact_status_rule_witness :
    (sampleFact ∈ (build (fun s => s) [] [] [] [sampleRow]).facts) ∧
    (sampleFact.status_pct =
      if sampleFact.locked = 1 then 100 else if 0 < sampleFact.con_occurrences then 25 else 75) := by
  have hm : sampleFact ∈ (build (fun s => s) [] [] [] [sampleRow]).facts := by
    rw [sample_facts_eval]
    exact List.mem_singleton.mpr rfl
  exact ⟨hm, (C1_fact_status_rule (fun s => s) [] [] [] _ _ hm).1⟩

/-- C2: every argument line's strength is
`round(veracity × relevance × reasoning_credibility × impact_score, 4)`, with
veracity read off the fact's status percentage through the fixed
0/25/50/75/100 → 0/.25/.5/.75/1 table, and each of the three factors drawn
from the fixed bucket set: values in the set are kept, any other input is
snapped to a nearest bucket, and a missing or unparseable input defaults to
0.50. -/
theorem C2_strength (sha : String → String) (seedRows : List SeedRow)
    (argT factT : List TuningRow) (rows : List EventRow) :
    (∀ l ∈ (build sha seedRows argT factT rows).args,
      l.strength = roundDp 4 (veracity_from_status_pct l.fact_veracity_pct * l.relevance *
          l.reasoning_credibility * l.impact_score) ∧
      l.relevance ∈ bucketList ∧ l.reasoning_credibility ∈ bucketList ∧
      l.impact_score ∈ bucketList) ∧
    (∀ row : EventRow, ∀ l ∈ row_lines_pure sha (load_seed_facts sha seedRows) row,
      l.relevance = to_bucket (row.relevance.getD (1/2)) ∧
      l.reasoning_credibility = to_bucket (row.reasoning_credibility.getD (1/2)) ∧
      l.impact_score = to_bucket (row.impact_score.getD (1/2))) ∧
    (∀ x : ℚ, to_bucket x ∈ bucketList ∧
      (∀ b ∈ bucketList, absQ (to_bucket x - x) ≤ absQ (b - x)) ∧
      (x ∈ bucketList → to_bucket x = x)) ∧
    to_bucket ((none : Option ℚ).getD (1/2)) = 1/2 ∧
    veracity_from_status_pct 0 = 0 ∧ veracity_from_status_pct 25 = 1/4 ∧
    veracity_from_status_pct 50 = 1/2 ∧ veracity_from_status_pct 75 = 3/4 ∧
    veracity_from_status_pct 100 = 1 := by
  refine ⟨?_, ?_, ?_, ?_, ?_, ?_, ?_, ?_, ?_⟩
  · intro l hl
    rw [build_args_eq] at hl
    unfold master_of arguments_master at hl
    rw [List.mem_map] at hl
    obtain ⟨l0, hl0, rfl⟩ := hl
    rw [(pass1_spec sha (load_seed_facts sha seedRows) rows).1] at hl0
    unfold lines_pure at hl0
    rw [List.mem_flatten] at hl0
    obtain ⟨L, hL, hl0L⟩ := hl0
    rw [List.mem_map] at hL
    obtain ⟨row, hrow, rfl⟩ := hL
    unfold row_lines_pure at hl0L
    rw [List.mem_map] at hl0L
    obtain ⟨ftxt, hftxt, rfl⟩ := hl0L
    exact ⟨rfl, to_bucket_mem _, to_bucket_mem _, to_bucket_mem _⟩
  · intro row l hl
    unfold row_lines_pure at hl
    rw [List.mem_map] at hl
    obtain ⟨ftxt, hftxt, rfl⟩ := hl
    exact ⟨rfl, rfl, rfl⟩
  · exact fun x => ⟨to_bucket_mem x, to_bucket_nearest x, fun h => to_bucket_of_mem h⟩
  · exact to_bucket_of_mem (by norm_num [bucketList])
  · norm_num [veracity_from_status_pct]
  · norm_num [veracity_from_status_pct]
  · norm_num [veracity_from_status_pct]
  · norm_num [veracity_from_status_pct]
  · norm_num [veracity_from_status_pct]

/-- Witness for C2: one line with defaulted factors and an unchallenged
fact, whose strength is `round(0.75 × 0.5 × 0.5 × 0.5, 4) = 0.0938`. -/
theorem C2_strength_witness :
    (sampleLine ∈ (build (fun s => s) [] [] [] [sampleRow]).args) ∧
    (sampleLine.strength =
      roundDp 4 (veracity_from_status_pct sampleLine.fact_veracity_pct * sampleLine.relevance *
        sampleLine.reasoning_credibility * sampleLine.impact_score)) := by
  have hm : sampleLine ∈ (build (fun s => s) [] [] [] [sampleRow]).args := by
    rw [sample_args_eval]
    exact List.mem_singleton.mpr rfl
  exact ⟨hm, ((C2_strength (fun s => s) [] [] [] _).1 _ hm).1⟩

/-- C3: each topic's per-side total takes, per distinct argument reference,
the maximum strength over its occurrence lines (every occurrence strength is
≤ the family maximum — not a sum or average), applies the tuning override
(manual fixed value when present, else base × multiplier, always clamped to
[0,1]), and sums over the distinct references; the reported `net_score` is
exactly the tuned pro total minus the tuned con total. -/
theorem C3_rollup (sha : String → String) (seedRows : List SeedRow)
    (argT factT : List TuningRow) (rows : List EventRow) :
    (∀ c ∈ (build sha seedRows argT factT rows).conclusions,
      c.pro_total_tuned =
        side_tuned_total (master_of sha seedRows rows) (read_tuning argT) c.topic_id "pro" ∧
      c.con_total_tuned =
        side_tuned_total (master_of sha seedRows rows) (read_tuning argT) c.topic_id "con" ∧
      c.net_score = c.pro_total_tuned - c.con_total_tuned) ∧
    (∀ (lines : List ArgLine) (tuning : List (String × TuningEntry)) (t side : String),
      side_tuned_total lines tuning t side =
        roundDp 4 (((refs_for lines t side).map
          (fun ar => apply_tuning (roundDp 6 (list_max (strengths_for lines t side ar)))
            ar tuning)).sum)) ∧
    (∀ (lines : List ArgLine) (t side ar : String), ∀ v ∈ strengths_for lines t side ar,
      v ≤ list_max (strengths_for lines t side ar)) ∧
    (∀ (base : ℚ) (ref : String) (tuning : List (String × TuningEntry)),
      alookup tuning ref = none → apply_tuning base ref tuning = clamp01 base) ∧
    (∀ (base m : ℚ) (ref : String) (tuning : List (String × TuningEntry)) (mult : Option ℚ),
      alookup tuning ref = some (some (some m), mult) →
        apply_tuning base ref tuning = clamp01 m) ∧
    (∀ (base : ℚ) (ref : String) (tuning : List (String × TuningEntry)) (mult : Option ℚ),
      alookup tuning ref = some (none, mult) →
        apply_tuning base ref tuning = clamp01 (base * mult.getD 1)) ∧
    (∀ x : ℚ, clamp01 x = max 0 (min 1 x)) := by
  refine ⟨?_, ?_, ?_, ?_, ?_, ?_, fun x => rfl⟩
  · intro c hc
    rw [build_conclusions_eq] at hc
    rw [List.mem_map] at hc
    obtain ⟨t, ht, rfl⟩ := hc
    simp only [conclusion_for]
    refine ⟨roundDp_idem 4 _, roundDp_idem 4 _, ?_⟩
    unfold side_tuned_total
    rw [roundDp_sub_exact, roundDp_idem, roundDp_idem]
  · intro lines tuning t side
    rfl
  · exact fun lines t side ar v hv => le_list_max hv
  · intro base ref tuning h
    simp [apply_tuning, h]
  · intro base m ref tuning mult h
    simp [apply_tuning, h]
  · intro base ref tuning mult h
    simp [apply_tuning, h]

/-- Witness for C3: the one-topic, one-reference run — its net score is the
tuned pro total minus the (empty, hence zero) tuned con total. -/
theorem C3_rollup_witness :
    (sampleConclusion ∈ (build (fun s => s) [] [] [] [sampleRow]).conclusions) ∧
    (sampleConclusion.net_score =
      sampleConclusion.pro_total_tuned - sampleConclusion.con_total_tuned) := by
  have hm : sampleConclusion ∈ (build (fun s => s) [] [] [] [sampleRow]).conclusions := by
    rw [sample_conclusions_eval]
    exact List.mem_singleton.mpr rfl
  exact ⟨hm, ((C3_rollup (fun s => s) [] [] [] _).1 _ hm).2.2⟩

theorem pack_sorted_sorted (l : List (String × String × ℚ)) :
    List.Sorted (fun a b => b.2.2 ≤ a.2.2) (pack_sorted l) := by
  haveI : IsTotal (String × String × ℚ) (fun a b => b.2.2 ≤ a.2.2) :=
    ⟨fun a b => le_total b.2.2 a.2.2⟩
  haveI : IsTrans (String × String × ℚ) (fun a b => b.2.2 ≤ a.2.2) :=
    ⟨fun a b c hab hbc => le_trans hbc hab⟩
  exact List.sorted_insertionSort _ l

/-- C7: in every conclusions row, the packed pro and con argument-reference
lists (rendered verbatim by the CSV packing and the HTML PRO/CON lists) are
sorted by tuned strength in non-increasing order. -/
theorem C7_sorted_desc (sha : String → String) (seedRows : List SeedRow)
    (argT factT : List TuningRow) (rows : List EventRow) (c : ConclusionRow)
    (hc : c ∈ (build sha seedRows argT factT rows).conclusions) :
    List.Sorted (fun a b => b.2.2 ≤ a.2.2) c.pro_argrefs ∧
    List.Sorted (fun a b => b.2.2 ≤ a.2.2) c.con_argrefs ∧
    c.pro_argrefs = pack_sorted (per_arg_list (master_of sha seedRows rows)
      (read_tuning argT) c.topic_id "pro") ∧
    c.con_argrefs = pack_sorted (per_arg_list (master_of sha seedRows rows)
      (read_tuning argT) c.topic_id "con") := by
  rw [build_conclusions_eq] at hc
  rw [List.mem_map] at hc
  obtain ⟨t, ht, rfl⟩ := hc
  simp only [conclusion_for]
  refine ⟨pack_sorted_sorted _, pack_sorted_sorted _, ?_, ?_⟩ <;> trivial

/-- Witness for C7: the sample run's conclusions row has its pro list sorted
by tuned strength descending. -/
theorem C7_sorted_desc_witness :
    (sampleConclusion ∈ (build (fun s => s) [] [] [] [sampleRow]).conclusions) ∧
    List.Sorted (fun a b => b.2.2 ≤ a.2.2) sampleConclusion.pro_argrefs := by
  have hm : sampleConclusion ∈ (build (fun s => s) [] [] [] [sampleRow]).conclusions := by
    rw [sample_conclusions_eval]
    exact List.mem_singleton.mpr rfl
  exact ⟨hm, (C7_sorted_desc (fun s => s) [] [] [] _ _ hm).1⟩

theorem map_sum_nonneg {α : Type} (l : List α) (f : α → ℚ) (h : ∀ a ∈ l, 0 ≤ f a) :
    0 ≤ (l.map f).sum := by
  induction l with
  | nil => simp
  | cons a l ih =>
    simp only [List.map_cons, List.sum_cons]
    have ha := h a (List.mem_cons_self _ _)
    have hl := ih (fun b hb => h b (List.mem_cons_of_mem _ hb))
    linarith

theorem map_sum_le_length {α : Type} (l : List α) (f : α → ℚ) (h : ∀ a ∈ l, f a ≤ 1) :
    (l.map f).sum ≤ (l.length : ℚ) := by
  induction l with
  | nil => simp
  | cons a l ih =>
    simp only [List.map_cons, List.sum_cons, List.length_cons]
    have ha := h a (List.mem_cons_self _ _)
    have hl := ih (fun b hb => h b (List.mem_cons_of_mem _ hb))
    push_cast
    linarith

/-- The tuned strength written into a breakdown row lies in [0, 1]. -/
theorem roundDp_apply_tuning_unit (base : ℚ) (ref : String)
    (tm : List (String × TuningEntry)) :
    0 ≤ roundDp 4 (apply_tuning base ref tm) ∧ roundDp 4 (apply_tuning base ref tm) ≤ 1 := by
  obtain ⟨h0, h1⟩ := apply_tuning_mem_unit base ref tm
  refine ⟨roundDp_nonneg h0, ?_⟩
  have hm : apply_tuning base ref tm ≤ ((1 : ℤ) : ℚ) := by exact_mod_cast h1
  have := roundDp_le_intCast (n := 4) hm
  simpa using this

/-- C10 (amended): every tuned strength written to the per-topic argument and
fact breakdown tables lies in [0,1], whatever the tuning CSV holds (no entry,
manual override and multiplied value are all clamped); each per-side tuned
total is a rounded sum of per-reference tuned values in [0,1], hence lies
between 0 and the number of distinct references of that side (it is not
bounded by 1). -/
theorem C10_tuned_in_unit (sha : String → String) (seedRows : List SeedRow)
    (argT factT : List TuningRow) (rows : List EventRow) :
    (∀ (base : ℚ) (ref : String) (tuning : List (String × TuningEntry)),
      0 ≤ apply_tuning base ref tuning ∧ apply_tuning base ref tuning ≤ 1) ∧
    (∀ r ∈ (build sha seedRows argT factT rows).argref_rows,
      0 ≤ r.tuned_strength ∧ r.tuned_strength ≤ 1) ∧
    (∀ r ∈ (build sha seedRows argT factT rows).factref_rows,
      0 ≤ r.tuned_strength ∧ r.tuned_strength ≤ 1) ∧
    (∀ (lines : List ArgLine) (tuning : List (String × TuningEntry)) (t side : String),
      0 ≤ side_tuned_total lines tuning t side ∧
      side_tuned_total lines tuning t side ≤ ((refs_for lines t side).length : ℚ)) := by
  refine ⟨apply_tuning_mem_unit, ?_, ?_, ?_⟩
  · intro r hr
    rw [build_argref_rows_eq] at hr
    rw [List.mem_flatten] at hr
    obtain ⟨L, hL, hrL⟩ := hr
    rw [List.mem_map] at hL
    obtain ⟨t, ht, rfl⟩ := hL
    rcases List.mem_append.mp hrL with h | h <;>
      · unfold arg_ref_rows at h
        rw [List.mem_map] at h
        obtain ⟨ar, har, rfl⟩ := h
        exact roundDp_apply_tuning_unit _ _ _
  · intro r hr
    rw [build_factref_rows_eq] at hr
    rw [List.mem_flatten] at hr
    obtain ⟨L, hL, hrL⟩ := hr
    rw [List.mem_map] at hL
    obtain ⟨t, ht, rfl⟩ := hL
    rcases List.mem_append.mp hrL with h | h <;>
      · unfold fact_ref_rows at h
        rw [List.mem_map] at h
        obtain ⟨fr, hfr, rfl⟩ := h
        exact roundDp_apply_tuning_unit _ _ _
  · intro lines tuning t side
    unfold side_tuned_total
    constructor
    · refine roundDp_nonneg ?_
      exact map_sum_nonneg _ _ (fun ar _ => (apply_tuning_mem_unit _ _ _).1)
    · have hs := map_sum_le_length (refs_for lines t side)
        (fun ar => tuned_for lines tuning t side ar)
        (fun ar _ => (apply_tuning_mem_unit _ _ _).2)
      have hm : ((refs_for lines t side).map
          (fun ar => tuned_for lines tuning t side ar)).sum ≤
          (((refs_for lines t side).length : ℤ) : ℚ) := by push_cast; exact hs
      have := roundDp_le_intCast (n := 4) hm
      calc roundDp 4 (((refs_for lines t side).map
            (fun ar => tuned_for lines tuning t side ar)).sum) ≤
          (((refs_for lines t side).length : ℤ) : ℚ) := this
      _ = ((refs_for lines t side).length : ℚ) := by push_cast; ring

/-- Witness for C10 (amended): the sample run's single argument breakdown
row carries a tuned strength inside [0,1]. -/
theorem C10_tuned_in_unit_witness :
    ((⟨"TOP-t", "ARREF-arg a", "pro", 1, 469/5000, 469/5000, 469/5000, 469/5000⟩ : RefRow) ∈
      (build (fun s => s) [] [] [] [sampleRow]).argref_rows) ∧
    (0 ≤ (469/5000 : ℚ) ∧ (469/5000 : ℚ) ≤ 1) := by
  have hm : (⟨"TOP-t", "ARREF-arg a", "pro", 1, 469/5000, 469/5000, 469/5000,
      469/5000⟩ : RefRow) ∈ (build (fun s => s) [] [] [] [sampleRow]).argref_rows := by
    norm_num +decide [sampleRow, build, pass1, row_lines, row_facts, split_facts, replaceBars,
      splitChars, collapseWs, isSpaceChar, canonical_fact, norm_space, resolve_fact, alookup,
      note_group, mk_line, pick_arg_ref_name, lowerStr, derive_topic_id, slugish, stripDashes,
      hash_id, load_seed_facts, facts_master, fact_status_pct, arguments_master, pro_count,
      con_count, row_side, to_bucket, bucketList, absQ, veracity_from_status_pct, roundDp,
      roundHalfEven, trimStr, List.countP, List.countP.go, arg_ref_rows, strengths_for,
      refs_for, lines_for, dedupFirst, list_max, apply_tuning, read_tuning, clamp01,
      topics_of, List.insertionSort, List.orderedInsert]
  exact ⟨hm, (C10_tuned_in_unit (fun s => s) [] [] [] [sampleRow]).2.1 _ hm⟩

/-- Counterexample to C10 as stated: with no tuning at all, the pro-side
tuned total of this run is 2, outside [0,1]. -/
theorem C10_counterexample :
    ((build (fun s => s) c10seed [] [] c10rows).conclusions.map
      (fun c => c.pro_total_tuned)) = [2] ∧ ¬ ((2 : ℚ) ≤ 1) := by
  constructor
  · norm_num +decide [c10rows, c10seed, build, pass1, row_lines, row_facts, split_facts,
      replaceBars, splitChars, collapseWs, isSpaceChar, canonical_fact, norm_space,
      resolve_fact, alookup, note_group, mk_line, pick_arg_ref_name, lowerStr, derive_topic_id,
      slugish, stripDashes, hash_id, load_seed_facts, facts_master, fact_status_pct,
      arguments_master, pro_count, con_count, row_side, to_bucket, bucketList, absQ,
      veracity_from_status_pct, roundDp, roundHalfEven, trimStr, List.countP, List.countP.go,
      conclusion_for, side_tuned_total, tuned_for, smax_for, strengths_for, refs_for,
      lines_for, dedupFirst, list_max, apply_tuning, read_tuning, clamp01, per_arg_list,
      argref_name_of, pack_sorted, List.insertionSort, List.orderedInsert, topics_of,
      hidden_vals, visibility_of, open_ratio_of]
  · norm_num

theorem roundHalfEven_ge_intCast {x : ℚ} {m : ℤ} (h : (m : ℚ) ≤ x) : m ≤ roundHalfEven x := by
  have hfm : m ≤ ⌊x⌋ := Int.le_floor.mpr h
  unfold roundHalfEven
  split
  · exact hfm
  · split
    · omega
    · split <;> omega

theorem roundDp_ge (n : Nat) {x : ℚ} {m : ℤ} (h : (m : ℚ) ≤ x * 10 ^ n) :
    (m : ℚ) / 10 ^ n ≤ roundDp n x := by
  unfold roundDp
  have h10 : (0 : ℚ) < 10 ^ n := by positivity
  rw [div_le_div_iff_of_pos_right h10]
  exact_mod_cast roundHalfEven_ge_intCast h

/-- The strength-filling pass does not touch the topic, hint or confidence
fields, so the recorded hidden-hint confidences of a topic are those of the
first-pass lines. -/
theorem hidden_vals_arguments_master (lines : List ArgLine) (facts : List FactRow)
    (t : String) :
    hidden_vals (arguments_master lines facts) t = hidden_vals lines t := by
  induction lines with
  | nil => rfl
  | cons l ls ih =>
    unfold arguments_master at ih ⊢
    unfold hidden_vals at ih ⊢
    simp only [List.map_cons, List.filter_cons]
    by_cases hp : (l.topic_id == t && decide (l.hidden_topic_hint ≠ "")) = true
    · simp only [hp, if_true, List.map_cons]
      exact congrArg _ ih
    · simp only [hp, if_false]
      exact ih

theorem hidden_vals_append (l1 l2 : List ArgLine) (t : String) :
    hidden_vals (l1 ++ l2) t = hidden_vals l1 t ++ hidden_vals l2 t := by
  unfold hidden_vals
  rw [List.filter_append, List.map_append]

theorem filter_replicate_pos {α : Type} (p : α → Bool) (a : α) (n : Nat) (h : p a = true) :
    (List.replicate n a).filter p = List.replicate n a := by
  induction n with
  | zero => rfl
  | succ n ih => simp [List.replicate_succ, List.filter_cons, h, ih]

theorem hidden_vals_replicate (line : ArgLine) (t : String) (n : Nat)
    (h : (line.topic_id == t && decide (line.hidden_topic_hint ≠ "")) = true) :
    hidden_vals (List.replicate n line) t =
      List.replicate n line.hidden_topic_confidence := by
  unfold hidden_vals
  rw [filter_replicate_pos (fun l => l.topic_id == t && decide (l.hidden_topic_hint ≠ ""))
    line n h, List.map_replicate]

theorem countP_replicate {α : Type} (p : α → Bool) (a : α) (n : Nat) :
    (List.replicate n a).countP p = if p a then n else 0 := by
  induction n with
  | zero => simp
  | succ n ih =>
    rw [List.replicate_succ, List.countP_cons, ih]
    split <;> simp_all

theorem lines_pure_append (sha : String → String) (seed : List (String × String × Nat))
    (l1 l2 : List EventRow) :
    lines_pure sha seed (l1 ++ l2) = lines_pure sha seed l1 ++ lines_pure sha seed l2 := by
  unfold lines_pure
  rw [List.map_append, List.flatten_append]

theorem lines_pure_replicate_single (sha : String → String)
    (seed : List (String × String × Nat)) (row : EventRow) (line : ArgLine)
    (h : row_lines_pure sha seed row = [line]) (n : Nat) :
    lines_pure sha seed (List.replicate n row) = List.replicate n line := by
  induction n with
  | zero => rfl
  | succ n ih =>
    unfold lines_pure at ih ⊢
    rw [List.replicate_succ, List.map_cons, List.flatten_cons, ih, h, List.replicate_succ]
    rfl

theorem map_topic_id_arguments_master (lines : List ArgLine) (facts : List FactRow) :
    (arguments_master lines facts).map (fun l => l.topic_id) =
      lines.map (fun l => l.topic_id) := by
  unfold arguments_master
  rw [List.map_map]
  rfl

theorem filter_ne_replicate {α : Type} [DecidableEq α] (a : α) (n : Nat) :
    (List.replicate n a).filter (fun b => b ≠ a) = [] := by
  induction n with
  | zero => rfl
  | succ n ih => simp [List.replicate_succ, List.filter_cons, ih]

theorem dedupFirst_replicate (a : String) (n : Nat) :
    dedupFirst (List.replicate (n + 1) a) = [a] := by
  rw [List.replicate_succ]
  rw [dedupFirst]
  rw [filter_ne_replicate, dedupFirst]

/-- C4 (amended): a topic is classified hidden exactly when at least one
hidden-hint confidence was recorded for it and the share of recorded values
that reach 0.50, **rounded to 3 decimals**, reaches 0.40; a topic with no
recorded confidences is always open, and a share of at least 40% before
rounding does classify the topic hidden. -/
theorem C4_visibility (sha : String → String) (seedRows : List SeedRow)
    (argT factT : List TuningRow) (rows : List EventRow) (tr : TopicRow)
    (htr : tr ∈ (build sha seedRows argT factT rows).topics) :
    (tr.visibility = "hidden" ↔
      (hidden_vals (master_of sha seedRows rows) tr.topic_id ≠ [] ∧
        2/5 ≤ open_ratio_of (hidden_vals (master_of sha seedRows rows) tr.topic_id))) ∧
    (tr.visibility = "hidden" ∨ tr.visibility = "open") ∧
    (∀ vals : List ℚ, vals ≠ [] →
      open_ratio_of vals =
        roundDp 3 ((vals.countP (fun v => decide ((1:ℚ)/2 ≤ v)) : ℚ) / (vals.length : ℚ))) ∧
    (∀ vals : List ℚ, vals ≠ [] →
      2/5 ≤ ((vals.countP (fun v => decide ((1:ℚ)/2 ≤ v)) : ℚ) / (vals.length : ℚ)) →
      visibility_of vals = "hidden") := by
  have hmax : ∀ vals : List ℚ, vals ≠ [] → (max 1 vals.length : ℕ) = vals.length := by
    intro vals hne
    exact Nat.max_eq_right (Nat.one_le_iff_ne_zero.mpr
      (by simpa [List.length_eq_zero] using hne))
  have hratio : ∀ vals : List ℚ, vals ≠ [] →
      open_ratio_of vals =
        roundDp 3 ((vals.countP (fun v => decide ((1:ℚ)/2 ≤ v)) : ℚ) / (vals.length : ℚ)) := by
    intro vals hne
    unfold open_ratio_of
    rw [hmax vals hne]
  have hhid : ∀ vals : List ℚ, vals ≠ [] →
      2/5 ≤ ((vals.countP (fun v => decide ((1:ℚ)/2 ≤ v)) : ℚ) / (vals.length : ℚ)) →
      visibility_of vals = "hidden" := by
    intro vals hne hge
    unfold visibility_of
    rw [if_neg hne, if_pos]
    rw [hratio vals hne]
    have hlen : (0 : ℚ) < (vals.length : ℚ) := by
      have : vals.length ≠ 0 := by simpa [List.length_eq_zero] using hne
      positivity
    have h400 : ((400 : ℤ) : ℚ) ≤
        ((vals.countP (fun v => decide ((1:ℚ)/2 ≤ v)) : ℚ) / (vals.length : ℚ)) * 10 ^ 3 := by
      rw [div_mul_eq_mul_div, le_div_iff₀ hlen]
      rw [le_div_iff₀ hlen] at hge
      push_cast
      linarith
    have := roundDp_ge 3 h400
    calc (2/5 : ℚ) = ((400 : ℤ) : ℚ) / 10 ^ 3 := by norm_num
    _ ≤ _ := this
  refine ⟨?_, ?_, hratio, hhid⟩
  · rw [build_topics_eq] at htr
    rw [List.mem_map] at htr
    obtain ⟨t, ht, rfl⟩ := htr
    by_cases h0 : hidden_vals (master_of sha seedRows rows) t = []
    · simp +decide [visibility_of, h0]
    · by_cases h1 : 2/5 ≤ open_ratio_of (hidden_vals (master_of sha seedRows rows) t)
      · simp +decide [visibility_of, h0, h1]
      · simp +decide [visibility_of, h0, h1]
  · rw [build_topics_eq] at htr
    rw [List.mem_map] at htr
    obtain ⟨t, ht, rfl⟩ := htr
    unfold visibility_of
    split
    · exact Or.inr rfl
    · split
      · exact Or.inl rfl
      · exact Or.inr rfl

/-- Witness for C4 (amended): the sample run records no hint confidences, so
its topic is open. -/
theorem C4_visibility_witness :
    ((⟨"TOP-t", "open", 0⟩ : TopicRow) ∈
      (build (fun s => s) [] [] [] [sampleRow]).topics) ∧
    (("open" : String) = "hidden" ∨ ("open" : String) = "open") := by
  have hm : (⟨"TOP-t", "open", 0⟩ : TopicRow) ∈
      (build (fun s => s) [] [] [] [sampleRow]).topics := by
    norm_num +decide [sampleRow, build, pass1, row_lines, row_facts, split_facts, replaceBars,
      splitChars, collapseWs, isSpaceChar, canonical_fact, norm_space, resolve_fact, alookup,
      note_group, mk_line, pick_arg_ref_name, lowerStr, derive_topic_id, slugish, stripDashes,
      hash_id, load_seed_facts, facts_master, fact_status_pct, arguments_master, pro_count,
      con_count, row_side, to_bucket, bucketList, absQ, veracity_from_status_pct, roundDp,
      roundHalfEven, trimStr, List.countP, List.countP.go, topics_of, dedupFirst,
      List.insertionSort, List.orderedInsert, hidden_vals, visibility_of, open_ratio_of]
  exact ⟨hm, (C4_visibility (fun s => s) [] [] [] [sampleRow] _ hm).2.1⟩

/-- Counterexample to C4 as stated: on this run the topic is classified
hidden although only 161/403 < 40% of its recorded confidences are ≥ 0.50
(the rounded share 0.3995 → 0.400 crosses the threshold). -/
theorem C4_counterexample :
    (build (fun s => s) [] [] [] c4rows).topics = [⟨"TOP-t", "hidden", 2/5⟩] ∧
    hidden_vals (master_of (fun s => s) [] c4rows) "TOP-t" =
      List.replicate 161 ((1:ℚ)/2) ++ List.replicate 242 (0:ℚ) ∧
    (((List.replicate 161 ((1:ℚ)/2) ++ List.replicate 242 (0:ℚ)).countP
        (fun v => decide ((1:ℚ)/2 ≤ v)) : ℚ) /
      ((List.replicate 161 ((1:ℚ)/2) ++ List.replicate 242 (0:ℚ)).length : ℚ) = 161/403) ∧
    ¬ (2/5 ≤ (161:ℚ)/403) := by
  have hA : row_lines_pure (fun s => s) [] c4rowA = [c4lineA] := by
    norm_num +decide [c4rowA, c4lineA, row_lines_pure, row_facts, split_facts, replaceBars,
      splitChars, collapseWs, isSpaceChar, canonical_fact, norm_space, pure_fact_id, alookup,
      mk_line, pick_arg_ref_name, lowerStr, derive_topic_id, slugish, stripDashes, hash_id,
      row_side, to_bucket, bucketList, absQ]
  have hB : row_lines_pure (fun s => s) [] c4rowB = [c4lineB] := by
    norm_num +decide [c4rowB, c4lineB, row_lines_pure, row_facts, split_facts, replaceBars,
      splitChars, collapseWs, isSpaceChar, canonical_fact, norm_space, pure_fact_id, alookup,
      mk_line, pick_arg_ref_name, lowerStr, derive_topic_id, slugish, stripDashes, hash_id,
      row_side, to_bucket, bucketList, absQ]
  have hseed : load_seed_facts (fun s => s) [] = [] := rfl
  have hp1 : (pass1 (fun s => s) [] c4rows).1 =
      List.replicate 161 c4lineA ++ List.replicate 242 c4lineB := by
    have := (pass1_spec (fun s => s) [] c4rows).1
    rw [this]
    unfold c4rows
    rw [lines_pure_append]
    rw [lines_pure_replicate_single (fun s => s) [] c4rowA c4lineA hA]
    rw [lines_pure_replicate_single (fun s => s) [] c4rowB c4lineB hB]
  have hvals : hidden_vals (master_of (fun s => s) [] c4rows) "TOP-t" =
      List.replicate 161 ((1:ℚ)/2) ++ List.replicate 242 (0:ℚ) := by
    unfold master_of
    rw [hseed, hidden_vals_arguments_master, hp1, hidden_vals_append]
    rw [hidden_vals_replicate c4lineA "TOP-t" 161 (by decide)]
    rw [hidden_vals_replicate c4lineB "TOP-t" 242 (by decide)]
    rfl
  have hcount : ((List.replicate 161 ((1:ℚ)/2) ++ List.replicate 242 (0:ℚ)).countP
      (fun v => decide ((1:ℚ)/2 ≤ v))) = 161 := by
    rw [List.countP_append, countP_replicate, countP_replicate]
    norm_num
  have hlen : (List.replicate 161 ((1:ℚ)/2) ++ List.replicate 242 (0:ℚ)).length = 403 := by
    rw [List.length_append, List.length_replicate, List.length_replicate]
  have hratio : ((List.replicate 161 ((1:ℚ)/2) ++ List.replicate 242 (0:ℚ)).countP
        (fun v => decide ((1:ℚ)/2 ≤ v)) : ℚ) /
      ((List.replicate 161 ((1:ℚ)/2) ++ List.replicate 242 (0:ℚ)).length : ℚ) = 161/403 := by
    rw [hcount, hlen]
    norm_num
  have hopen : open_ratio_of (List.replicate 161 ((1:ℚ)/2) ++ List.replicate 242 (0:ℚ)) =
      2/5 := by
    unfold open_ratio_of
    rw [hcount, hlen]
    norm_num [roundDp, roundHalfEven]
  refine ⟨?_, hvals, hratio, by norm_num⟩
  rw [build_topics_eq]
  have htop : topics_of (master_of (fun s => s) [] c4rows) = ["TOP-t"] := by
    unfold topics_of
    have hmap : (master_of (fun s => s) [] c4rows).map (fun l => l.topic_id) =
        List.replicate 403 "TOP-t" := by
      unfold master_of
      rw [hseed, map_topic_id_arguments_master, hp1, List.map_append,
        List.map_replicate, List.map_replicate]
      show List.replicate 161 "TOP-t" ++ List.replicate 242 "TOP-t" = _
      rw [← List.replicate_add]
    rw [hmap]
    rw [show (403 : Nat) = 402 + 1 from rfl, dedupFirst_replicate]
    rfl
  rw [htop]
  rw [List.map_singleton]
  rw [hvals]
  have hne : (List.replicate 161 ((1:ℚ)/2) ++ List.replicate 242 (0:ℚ)) ≠ [] := by
    intro h
    have := congrArg List.length h
    rw [hlen] at this
    simp at this
  unfold visibility_of
  rw [if_neg hne, hopen, if_pos (le_refl _)]

theorem rfindPos_lt_length (c : Char) (l : List Char) : rfindPos c l < (l.length : Int) := by
  induction l with
  | nil => norm_num [rfindPos]
  | cons a l ih =>
    simp only [rfindPos, List.length_cons]
    by_cases hr : rfindPos c l = -1
    · simp only [hr, if_true]
      split <;> push_cast <;> omega
    · simp only [hr, if_false]
      push_cast
      omega

/-- C5 (amended): the canonical short name of an argument is the normalized
explicit name when non-empty; otherwise the normalized argument text when it
is non-empty and at most 120 characters; otherwise (text longer than 120)
a ≤121-character truncation of it, and for an empty name and text the
placeholder `"(argument)"`.  The argument reference id is the stable hash of
that short name, so any two rows with the same canonical short name receive
the same `arg_ref_id`. -/
theorem C5_arg_ref_name (sha : String → String) (seed : List (String × String × Nat)) :
    (∀ nm txt : String, norm_space nm ≠ "" → pick_arg_ref_name nm txt = norm_space nm) ∧
    (∀ nm txt : String, norm_space nm = "" → norm_space txt ≠ "" →
      ¬ 120 < (norm_space txt).length → pick_arg_ref_name nm txt = norm_space txt) ∧
    (∀ nm txt : String, norm_space nm = "" → norm_space txt = "" →
      pick_arg_ref_name nm txt = "(argument)") ∧
    (∀ nm txt : String, norm_space nm = "" → 120 < (norm_space txt).length →
      (pick_arg_ref_name nm txt).length ≤ 121) ∧
    (∀ nm1 txt1 nm2 txt2 : String,
      pick_arg_ref_name nm1 txt1 = pick_arg_ref_name nm2 txt2 →
      hash_id sha "ARREF" (pick_arg_ref_name nm1 txt1) 10 =
        hash_id sha "ARREF" (pick_arg_ref_name nm2 txt2) 10) ∧
    (∀ row : EventRow, ∀ l ∈ row_lines_pure sha seed row,
      l.arg_ref_name = pick_arg_ref_name row.argument_ref_name (norm_space row.argument_text) ∧
      l.arg_ref_id = hash_id sha "ARREF" l.arg_ref_name 10) := by
  refine ⟨?_, ?_, ?_, ?_, ?_, ?_⟩
  · intro nm txt h
    simp only [pick_arg_ref_name]
    rw [if_pos h]
  · intro nm txt h1 h2 h3
    simp only [pick_arg_ref_name]
    rw [if_neg (by simp [h1])]
    simp only [if_neg h3]
    rw [if_neg h2]
  · intro nm txt h1 h2
    simp only [pick_arg_ref_name]
    rw [if_neg (by simp [h1])]
    have h3 : ¬ 120 < (norm_space txt).length := by
      rw [h2]
      decide
    simp only [if_neg h3]
    rw [if_pos h2]
  · intro nm txt h1 h2
    simp only [pick_arg_ref_name]
    rw [if_neg (by simp [h1])]
    simp only [if_pos h2]
    have hk : (if rfindPos ' ' ((norm_space txt).toList.take 120) < 60 then (120 : Int)
        else rfindPos ' ' ((norm_space txt).toList.take 120)).toNat ≤ 120 := by
      have hb := rfindPos_lt_length ' ' ((norm_space txt).toList.take 120)
      have hlen : ((norm_space txt).toList.take 120).length ≤ 120 := by
        rw [List.length_take]
        omega
      split <;> omega
    set k := (if rfindPos ' ' ((norm_space txt).toList.take 120) < 60 then (120 : Int)
      else rfindPos ' ' ((norm_space txt).toList.take 120)).toNat with hkdef
    have hdata : (String.mk ((norm_space txt).toList.take k) ++ "…").data =
        ((norm_space txt).toList.take k) ++ ['…'] := rfl
    have hne : String.mk ((norm_space txt).toList.take k) ++ "…" ≠ "" := by
      intro h
      have := congrArg String.data h
      rw [hdata] at this
      simp at this
    rw [if_neg hne]
    have hlen2 : (String.mk ((norm_space txt).toList.take k) ++ "…").length =
        ((norm_space txt).toList.take k).length + 1 := by
      show (String.mk ((norm_space txt).toList.take k) ++ "…").data.length = _
      rw [hdata]
      rw [List.length_append]
      rfl
    rw [hlen2]
    have : ((norm_space txt).toList.take k).length ≤ k := by
      rw [List.length_take]
      omega
    omega
  · intro nm1 txt1 nm2 txt2 h
    rw [h]
  · intro row l hl
    unfold row_lines_pure at hl
    rw [List.mem_map] at hl
    obtain ⟨ftxt, hftxt, rfl⟩ := hl
    exact ⟨rfl, rfl⟩

/-- Witness for C5 (amended): a non-empty explicit name is normalized and
used as the canonical short name. -/
theorem C5_arg_ref_name_witness :
    (norm_space " x " ≠ "") ∧ pick_arg_ref_name " x " "some text" = norm_space " x " := by
  refine ⟨by decide, (C5_arg_ref_name (fun s => s) []).1 " x " "some text" (by decide)⟩

/-- Counterexample to C5 as stated: the empty argument text has at most 120
characters but is not used unchanged as the canonical short name — the
placeholder `"(argument)"` is. -/
theorem C5_counterexample :
    pick_arg_ref_name "" "" = "(argument)" ∧ (norm_space "").length ≤ 120 ∧
    pick_arg_ref_name "" "" ≠ norm_space "" := by decide

theorem alookup_filter_ne {α : Type} (d : List (String × α)) (k a : String) (h : ¬ k = a) :
    alookup (d.filter (fun p => p.1 ≠ k)) a = alookup d a := by
  induction d with
  | nil => rfl
  | cons p es ih =>
    rw [List.filter_cons]
    by_cases hp : p.1 = k
    · have hpa : ¬ p.1 = a := by rw [hp]; exact h
      simp only [hp]
      rw [if_neg (by simp)]
      rw [alookup, if_neg hpa]
      exact ih
    · rw [if_pos (by simpa using hp)]
      rw [alookup, alookup]
      by_cases hpa : p.1 = a
      · rw [if_pos hpa, if_pos hpa]
      · rw [if_neg hpa, if_neg hpa]
        exact ih

theorem alookup_dinsert {α : Type} (d : List (String × α)) (k : String) (v : α) (a : String) :
    alookup (dinsert d k v) a = if k = a then some v else alookup d a := by
  unfold dinsert
  rw [alookup]
  by_cases h : k = a
  · rw [if_pos h, if_pos h]
  · rw [if_neg h, if_neg h]
    exact alookup_filter_ne d k a h

theorem load_seed_aux (sha : String → String) (rows : List SeedRow) :
    ∀ (acc : List (String × String × Nat)) (ct fr : String) (lk : Nat),
      alookup (rows.foldl (seed_step sha) acc) ct = some (fr, lk) →
      (∃ sr ∈ rows, canonical_fact sr.canonical_text = ct ∧
        ((sr.fact_ref_id ≠ "" ∧ fr = sr.fact_ref_id) ∨
         (sr.fact_ref_id = "" ∧ fr = hash_id sha "FREF" ct 8))) ∨
      alookup acc ct = some (fr, lk) := by
  induction rows with
  | nil => intro acc ct fr lk h; exact Or.inr h
  | cons r rows ih =>
    intro acc ct fr lk h
    rw [List.foldl_cons] at h
    rcases ih (seed_step sha acc r) ct fr lk h with hg | hacc
    · obtain ⟨sr, hsr, hrest⟩ := hg
      exact Or.inl ⟨sr, List.mem_cons_of_mem _ hsr, hrest⟩
    · unfold seed_step at hacc
      by_cases hct : canonical_fact r.canonical_text = ""
      · rw [if_pos hct] at hacc
        exact Or.inr hacc
      · rw [if_neg hct] at hacc
        rw [alookup_dinsert] at hacc
        by_cases heq : canonical_fact r.canonical_text = ct
        · rw [if_pos heq] at hacc
          injection hacc with hacc
          have hfr : fr = if r.fact_ref_id = "" then hash_id sha "FREF"
              (canonical_fact r.canonical_text) 8 else r.fact_ref_id := by
            have := congrArg Prod.fst hacc
            simp at this
            rw [← this]
          refine Or.inl ⟨r, List.mem_cons_self _ _, heq, ?_⟩
          by_cases hid : r.fact_ref_id = ""
          · right
            refine ⟨hid, ?_⟩
            rw [hfr, if_pos hid, heq]
          · left
            refine ⟨hid, ?_⟩
            rw [hfr, if_neg hid]
        · rw [if_neg heq] at hacc
          exact Or.inr hacc

/-- C6: two fact texts equal after canonical normalization always resolve to
the same `fact_ref_id` — the first pass equals its pure form, in which every
occurrence's id is a function of the canonical text alone: the seed id when
the text is seeded (the externally supplied id whenever the seed row carries
one, the 8-char hash fallback otherwise), and the stable 10-char
`hash_id("FREF", ·)` otherwise. -/
theorem C6_fact_id_stability (sha : String → String) (seedRows : List SeedRow)
    (rows : List EventRow) :
    ((pass1 sha (load_seed_facts sha seedRows) rows).1 =
      lines_pure sha (load_seed_facts sha seedRows) rows) ∧
    (∀ (seed : List (String × String × Nat)) (t1 t2 : String),
      canonical_fact t1 = canonical_fact t2 →
      pure_fact_id sha seed (canonical_fact t1) = pure_fact_id sha seed (canonical_fact t2)) ∧
    (∀ (seed : List (String × String × Nat)) (ct : String) (p : String × Nat),
      alookup seed ct = some p → pure_fact_id sha seed ct = p.1) ∧
    (∀ (seed : List (String × String × Nat)) (ct : String),
      alookup seed ct = none → pure_fact_id sha seed ct = hash_id sha "FREF" ct 10) ∧
    (∀ (ct fr : String) (lk : Nat),
      alookup (load_seed_facts sha seedRows) ct = some (fr, lk) →
      ∃ sr ∈ seedRows, canonical_fact sr.canonical_text = ct ∧
        ((sr.fact_ref_id ≠ "" ∧ fr = sr.fact_ref_id) ∨
         (sr.fact_ref_id = "" ∧ fr = hash_id sha "FREF" ct 8))) := by
  refine ⟨(pass1_spec sha (load_seed_facts sha seedRows) rows).1, ?_, ?_, ?_, ?_⟩
  · intro seed t1 t2 h
    rw [h]
  · intro seed ct p h
    unfold pure_fact_id
    rw [h]
  · intro seed ct h
    unfold pure_fact_id
    rw [h]
  · intro ct fr lk h
    unfold load_seed_facts at h
    rcases load_seed_aux sha seedRows [] ct fr lk h with hg | habs
    · exact hg
    · cases habs

/-- Witness for C6: a seeded fact text resolves to its externally supplied
seed id. -/
theorem C6_fact_id_stability_witness :
    (alookup (load_seed_facts (fun s => s) [⟨"F", "SEED1", "1"⟩]) "F" = some ("SEED1", 1)) ∧
    (∃ sr ∈ [(⟨"F", "SEED1", "1"⟩ : SeedRow)], canonical_fact sr.canonical_text = "F" ∧
      ((sr.fact_ref_id ≠ "" ∧ "SEED1" = sr.fact_ref_id) ∨
       (sr.fact_ref_id = "" ∧ "SEED1" = hash_id (fun s => s) "FREF" "F" 8))) := by
  have h : alookup (load_seed_facts (fun s => s) [⟨"F", "SEED1", "1"⟩]) "F" =
      some ("SEED1", 1) := by decide
  exact ⟨h, (C6_fact_id_stability (fun s => s) [⟨"F", "SEED1", "1"⟩] []).2.2.2.2 "F" "SEED1" 1 h⟩

/-- C9 (amended): an event row's side is `"con"` unless its normalized,
lowercased `topic_side` is exactly `"pro"`; every line the row emits (one
per cited fact) carries that side; a con occurrence marks an *unlocked* fact
contested (status 25); and con lines are exactly what the con side of the
rollup and the `topic_side` column of arguments_master see. -/
theorem C9_side_classification (sha : String → String) (seedRows : List SeedRow)
    (argT factT : List TuningRow) (rows : List EventRow) :
    (∀ row : EventRow, lowerStr (norm_space row.topic_side) ≠ "pro" → row_side row = "con") ∧
    (∀ row : EventRow, ∀ l ∈ row_lines_pure sha (load_seed_facts sha seedRows) row,
      l.topic_side = row_side row) ∧
    (∀ row : EventRow,
      (row_lines_pure sha (load_seed_facts sha seedRows) row).length =
        (row_facts row).length) ∧
    (∀ f ∈ (build sha seedRows argT factT rows).facts,
      f.locked ≠ 1 → 0 < f.con_occurrences →
      f.status_pct = 25 ∧ f.status_method = "contested") ∧
    (∀ (lines : List ArgLine) (frid : String),
      con_count lines frid =
        (lines.filter (fun l => l.fact_ref_id == frid && l.topic_side == "con")).length) ∧
    (∀ l ∈ master_of sha seedRows rows, l.topic_side = "con" →
      l ∈ lines_for (master_of sha seedRows rows) l.topic_id "con") := by
  refine ⟨?_, ?_, ?_, ?_, ?_, ?_⟩
  · intro row h
    unfold row_side
    rw [if_neg h]
  · intro row l hl
    unfold row_lines_pure at hl
    rw [List.mem_map] at hl
    obtain ⟨ftxt, hftxt, rfl⟩ := hl
    rfl
  · intro row
    unfold row_lines_pure
    rw [List.length_map]
  · intro f hf hlk hcon
    rw [build_facts_eq] at hf
    unfold facts_master at hf
    rw [List.mem_map] at hf
    obtain ⟨g, hg, rfl⟩ := hf
    by_cases h1 : g.2.2 = 1
    · exfalso
      apply hlk
      simp [h1]
    · by_cases h2 : 0 < con_count (pass1 sha (load_seed_facts sha seedRows) rows).1 g.1
      · simp [h1, h2]
      · exfalso
        apply h2
        simp [h1, h2] at hcon
  · intro lines frid
    unfold con_count
    rw [List.countP_eq_length_filter]
  · intro l hl hcon
    unfold lines_for
    rw [List.mem_filter]
    exact ⟨hl, by simp [hcon]⟩

/-- Witness for C9 (amended): the unrecognized side label `Against` is
classified con. -/
theorem C9_side_classification_witness :
    (lowerStr (norm_space "Against") ≠ "pro") ∧
    row_side (⟨"t", "Against", "", "", "", "", none, none, none, none⟩ : EventRow) = "con" := by
  refine ⟨by decide, (C9_side_classification (fun s => s) [] [] [] []).1 _ (by decide)⟩

/-- Counterexample to C9 as stated: the con occurrence is recorded
(`con_occurrences = 1`), but the cited fact is locked, so it is *not* marked
contested — its status stays 100 / `base_context`. -/
theorem C9_counterexample :
    (build (fun s => s) c9seed [] [] [c9row]).facts =
      [⟨"FID1", "F", 100, 1, "Human", "base_context", 0, 1⟩] ∧
    ((100 : ℤ) ≠ 25 ∧ ("base_context" : String) ≠ "contested") := by
  exact ⟨by decide, by decide, by decide⟩

theorem getArr_is_arr (o : Option Json) : ∃ l, getArr o = Json.arr l := by
  match o with
  | none => exact ⟨[], rfl⟩
  | some Json.null => exact ⟨[], rfl⟩
  | some (Json.bool b) => exact ⟨[], rfl⟩
  | some (Json.num q) => exact ⟨[], rfl⟩
  | some (Json.str s) => exact ⟨[], rfl⟩
  | some (Json.arr l) => exact ⟨l, rfl⟩
  | some (Json.obj f) => exact ⟨[], rfl⟩

/-- C8: the secured per-message analysis always yields exactly the five keys
`sophisms`, `real_matters`, `fallacious_excuses`, `valid_but_misused`,
`major_points`, each bound to a (possibly empty) list; when the
brace-delimited segment does not parse the result is the all-empty
dictionary, and a missing key or non-list value falls back to the empty
list — the function is total, so the parsing step never raises. -/
theorem C8_secure_json (parse : String → Option Json) (raw : String) :
    ((secure_json parse raw).map Prod.fst = analysisKeys) ∧
    (∀ p ∈ secure_json parse raw, ∃ l, p.2 = Json.arr l) ∧
    (parse (extract_segment raw) = none →
      secure_json parse raw = analysisKeys.map (fun k => (k, Json.arr []))) ∧
    (∀ (fields : List (String × Json)) (k : String),
      jget fields k = none → getArr (jget fields k) = Json.arr []) ∧
    (∀ (fields : List (String × Json)) (k : String) (l : List Json),
      jget fields k = some (Json.arr l) → getArr (jget fields k) = Json.arr l) := by
  refine ⟨?_, ?_, ?_, ?_, ?_⟩
  · unfold secure_json
    cases h : parse (extract_segment raw) with
    | none => simp [analysisKeys]
    | some j => cases j <;> simp [analysisKeys]
  · intro p hp
    unfold secure_json at hp
    cases h : parse (extract_segment raw) with
    | none =>
      rw [h] at hp
      rw [List.mem_map] at hp
      obtain ⟨k, hk, rfl⟩ := hp
      exact ⟨[], rfl⟩
    | some j =>
      rw [h] at hp
      cases j <;>
        · rw [List.mem_map] at hp
          obtain ⟨k, hk, rfl⟩ := hp
          first
          | exact ⟨[], rfl⟩
          | exact getArr_is_arr _
  · intro h
    unfold secure_json
    rw [h]
  · intro fields k h
    rw [h]
    rfl
  · intro fields k l h
    rw [h]
    rfl

/-- Witness for C8: a response with no parseable JSON yields the all-empty
five-key dictionary. -/
theorem C8_secure_json_witness :
    ((fun _ : String => (none : Option Json)) (extract_segment "x") = none) ∧
    secure_json (fun _ => none) "x" = analysisKeys.map (fun k => (k, Json.arr [])) := by
  exact ⟨rfl, (C8_secure_json (fun _ => none) "x").2.2.1 rfl⟩

end AutoPN
